import Mathlib

/-!
# Verification of the parkersquare repository

Shallow embedding of `src/parkersquare.py` and `src/parkersquare2.py`:
the number-theoretic pre-filters (`ParkerThreeSquareCheck`, `ParkerIsSquare`,
`ParkerIntegerSqrt`), the value-table construction, the backtracking search
engine (`_parkerSearch`), the checkpoint save/load logic
(`_parkerStateSave` / `_parkerStateRead`) and the init/search pipelines,
together with theorems settling the frozen specification claims.

Python `while` loops whose termination is itself in question are modelled
with explicit fuel (`none` = the loop did not finish within the fuel);
loops with a structurally decreasing measure are modelled by well-founded
recursion.  Python's arbitrary-precision integers are `Nat`/`Int`.
-/

namespace ParkerSquare

/-! ## ParkerThreeSquareCheck (parkersquare.py lines 61-74, parkersquare2.py lines 198-211)

```
while number % 4 == 0:
  number //= 4
if number % 8 != 7: result = True
```
-/

/-- The `while number % 4 == 0: number //= 4` reduction loop, with fuel.
`none` means the loop was still running when the fuel ran out. -/
def threeSquareLoop : Nat → Nat → Option Nat
  | 0, _ => none
  | fuel + 1, n => if n % 4 = 0 then threeSquareLoop fuel (n / 4) else some n

/-- `ParkerThreeSquareCheck`: remove factors of 4, then succeed unless the
residue is 7 mod 8.  Fuel `number` is enough for any positive input
(proved below); input 0 makes the Python loop spin forever, which the
fuelled model reports as `none`. -/
def ParkerThreeSquareCheck (number : Nat) : Option Bool :=
  (threeSquareLoop number number).map (fun m => decide (m % 8 ≠ 7))

theorem threeSquareLoop_zero_fuel_out : ∀ fuel, threeSquareLoop fuel 0 = none := by
  intro fuel
  induction fuel with
  | zero => rfl
  | succ k ih => simpa [threeSquareLoop] using ih

theorem threeSquareLoop_pos_isSome :
    ∀ fuel n, 1 ≤ n → n ≤ fuel → (threeSquareLoop fuel n).isSome := by
  intro fuel
  induction fuel with
  | zero => intro n h1 h2; omega
  | succ k ih =>
    intro n h1 h2
    by_cases h4 : n % 4 = 0
    · have hn4 : 4 ≤ n := by omega
      have hlt : n / 4 < n := Nat.div_lt_self (by omega) (by omega)
      have hpos : 1 ≤ n / 4 := Nat.one_le_div_iff (by omega) |>.mpr (by omega)
      simpa [threeSquareLoop, h4] using ih (n / 4) hpos (by omega)
    · simp [threeSquareLoop, h4]

/-- C10: the three-square pre-filter terminates for every input `n ≥ 1`
(each pass through the divide-by-4 loop strictly decreases `n`, so fuel `n`
suffices), while for input `n = 0` the reduction loop never terminates no
matter how much fuel it is given, so `n ≥ 1` is a necessary precondition for
the filter to return at all. -/
theorem parkerThreeSquareCheck_terminates_iff_pos :
    (∀ n : Nat, 1 ≤ n → (ParkerThreeSquareCheck n).isSome) ∧
    (∀ n : Nat, 1 ≤ n → n % 4 = 0 → n / 4 < n) ∧
    (∀ fuel : Nat, threeSquareLoop fuel 0 = none) ∧
    ParkerThreeSquareCheck 0 = none := by
  refine ⟨?_, ?_, threeSquareLoop_zero_fuel_out, ?_⟩
  · intro n h1
    have := threeSquareLoop_pos_isSome n n h1 le_rfl
    unfold ParkerThreeSquareCheck
    cases h : threeSquareLoop n n with
    | none => rw [h] at this; simp at this
    | some m => simp
  · intro n h1 h4
    exact Nat.div_lt_self (by omega) (by omega)
  · unfold ParkerThreeSquareCheck
    rw [threeSquareLoop_zero_fuel_out]
    rfl

/-- Witness for C10 at the concrete input `n = 28`. -/
theorem parkerThreeSquareCheck_terminates_iff_pos_witness :
    (1 ≤ 28 ∧ (ParkerThreeSquareCheck 28).isSome) ∧ (1 ≤ 28 ∧ 28 % 4 = 0 ∧ 28 / 4 < 28) :=
  ⟨⟨by decide, parkerThreeSquareCheck_terminates_iff_pos.1 28 (by decide)⟩,
   ⟨by decide, by decide, parkerThreeSquareCheck_terminates_iff_pos.2.1 28 (by decide) (by decide)⟩⟩

/-! ## ParkerIntegerSqrt (parkersquare2.py lines 104-130)

```
if n == 0: return 0
x = n // 2
while True:
  y = (x + n // x) // 2
  if abs(x - y) < 2: break
  x = y
if x * x == n: return x
if (x - 1)*(x - 1) == n: return x - 1
if (x + 1)*(x + 1) == n: return x + 1
return None
```
Python raises `ZeroDivisionError` on `n // x` when `x = 0`; the model makes
that outcome explicit.  The `while True` loop carries fuel. -/

inductive IsqrtResult where
  | root (r : Nat)
  | notSquare
  | divByZero
  | fuelOut
deriving DecidableEq, Repr

/-- The three exact-multiplication probes after the Newton loop ends. -/
def isqrtFinish (n x : Nat) : IsqrtResult :=
  if x * x = n then .root x
  else if (x - 1) * (x - 1) = n then .root (x - 1)
  else if (x + 1) * (x + 1) = n then .root (x + 1)
  else .notSquare

def isqrtLoop (n : Nat) : Nat → Nat → IsqrtResult
  | 0, _ => .fuelOut
  | fuel + 1, x =>
    if x = 0 then .divByZero
    else
      let y := (x + n / x) / 2
      if ((x : Int) - (y : Int)).natAbs < 2 then isqrtFinish n x
      else isqrtLoop n fuel y

def ParkerIntegerSqrt (n : Nat) (fuel : Nat) : IsqrtResult :=
  if n = 0 then .root 0 else isqrtLoop n fuel (n / 2)

/-- C3 (code bug): the round-trip `ParkerIntegerSqrt (k*k) = k` fails at
`k = 1`: for `n = 1` the code sets `x = n // 2 = 0` and the first loop
iteration evaluates `n // x`, which raises `ZeroDivisionError` in Python,
instead of returning 1.  For comparison, the neighbouring perfect squares
`n = 0` and `n = 4` round-trip as the claim states. -/
theorem parkerIntegerSqrt_one_divByZero :
    ParkerIntegerSqrt (1 * 1) 100 = .divByZero ∧
    ParkerIntegerSqrt (0 * 0) 100 = .root 0 ∧
    ParkerIntegerSqrt (2 * 2) 100 = .root 2 ∧
    ParkerIntegerSqrt (3 * 3) 100 = .root 3 := by decide

/-! ## ParkerIsSquare (parkersquare2.py lines 133-195)

Negativity / zero checks, reduction by powers of 4, bit and modulo sieves
(mod 8, 10, 7, 9, 13 and last-digit patterns), then the Babylonian loop with
cycle detection over the visited set `a = {x, n}`. -/

/-- `while n&3 == 0: n = n>>2`, as a fuelled structural recursion.  Python
only reaches this loop with `n ≥ 1` (the `n == 0` branch has already
returned), and for `n ≥ 1` fuel `n` suffices because the value strictly
decreases on every pass (`reduce4Aux_fuel_enough`). -/
def reduce4Aux : Nat → Nat → Nat
  | 0, n => n
  | fuel + 1, n => if n % 4 = 0 ∧ 0 < n then reduce4Aux fuel (n / 4) else n

def reduce4 (n : Nat) : Nat := reduce4Aux n n

/-- The "Other patterns" block: returns `true` when the candidate is
rejected by the decimal-digit tests. -/
def digitReject (m : Nat) : Bool :=
  if m % 10 = 5 then
    if m / 10 % 10 ≠ 2 then true
    else if ¬(m / 100 % 10 = 0 ∨ m / 100 % 10 = 2 ∨ m / 100 % 10 = 6) then true
    else if m / 100 % 10 = 6 ∧ ¬(m / 1000 % 10 = 0 ∨ m / 1000 % 10 = 5) then true
    else false
  else
    decide (m / 10 % 4 ≠ 0)

/-- The Babylonian root-extraction loop with cycle detection:
```
while x * x != n:
  x = (x + (n // x)) >> 1
  if x in a: return False
  a.add(x)
return True
```
`none` = fuel ran out. -/
def babylonLoop (n : Nat) : Nat → Nat → List Nat → Option Bool
  | 0, _, _ => none
  | fuel + 1, x, a =>
    if x * x = n then some true
    else
      if (x + n / x) / 2 ∈ a then some false
      else babylonLoop n fuel ((x + n / x) / 2) ((x + n / x) / 2 :: a)

/-- Start value of the root extraction: `s = (len(str(n))-1) // 2`,
`x = (10**s) * 4`.  For `n ≥ 1`, `len(str(n)) - 1 = Nat.log 10 n`. -/
def isSquareStart (m : Nat) : Nat := 10 ^ (Nat.log 10 m / 2) * 4

/-- Fuel that always suffices for the Babylonian loop (proved later). -/
def isSquareFuel (m : Nat) : Nat := isSquareStart m + m + 4

/-- `ParkerIsSquare` after the sign/zero checks and the power-of-4
reduction: `m` is the reduced (not divisible by 4) value. -/
def parkerIsSquareCore (m : Nat) : Option Bool :=
  if m % 8 ≠ 1 then some false
  else if m = 1 then some true
  else if m % 10 = 3 ∨ m % 10 = 7 then some false
  else if m % 7 = 3 ∨ m % 7 = 5 ∨ m % 7 = 6 then some false
  else if m % 9 = 2 ∨ m % 9 = 3 ∨ m % 9 = 5 ∨ m % 9 = 6 ∨ m % 9 = 8 then some false
  else if m % 13 = 2 ∨ m % 13 = 5 ∨ m % 13 = 6 ∨ m % 13 = 7 ∨ m % 13 = 8 ∨ m % 13 = 11 then some false
  else if digitReject m then some false
  else babylonLoop m (isSquareFuel m) (isSquareStart m) [isSquareStart m, m]

def ParkerIsSquare (n : Int) : Option Bool :=
  if n < 0 then some false
  else if n = 0 then some true
  else parkerIsSquareCore (reduce4 n.toNat)

/-- Total wrapper used where the Python code consumes the boolean result
directly (always agrees with `ParkerIsSquare`, which never runs out of
fuel — proved below). -/
def ParkerIsSquareB (n : Int) : Bool := (ParkerIsSquare n).getD false

/-! ## Value table construction -/

/-- Generic-mode table fill (parkersquare.py lines 170-173):
`glbArrNumbers[i] = i ** glbPower` for `i` in `0..size`.  The size itself
is computed by a floating-point root in the source (line 161); the fill is
parametrised by it here. -/
def parkerArrNumbers (power size : Nat) : List Nat :=
  (List.range (size + 1)).map (fun i => i ^ power)

/-- Dual-square enumeration loop of `_parkerDualSquares`
(parkersquare2.py lines 363-391): for `xCount = 1, 2, …` while the previous
square was below `x5`, keep the pair `(xCount², mid − xCount²)` when the
counterpart is a perfect square and differs from the square. -/
def dualGo (x5 mid : Nat) (xCount : Nat) : List Nat :=
  if h : xCount * xCount < x5 then
    let c := xCount + 1
    let sq := c * c
    let counter : Int := (mid : Int) - (sq : Int)
    if ParkerIsSquareB counter = false then dualGo x5 mid c
    else if (sq : Int) = counter then dualGo x5 mid c
    else sq :: counter.toNat :: dualGo x5 mid c
  else []
termination_by x5 - xCount
decreasing_by
  have hx : xCount < x5 := by
    rcases Nat.eq_zero_or_pos xCount with h0 | h1
    · omega
    · calc xCount = xCount * 1 := (Nat.mul_one _).symm
        _ ≤ xCount * xCount := Nat.mul_le_mul_left _ h1
        _ < x5 := h
  omega

/-- `_parkerDualSquares` table construction: the `0` sentinel, the kept
pairs, and (only when at least 8 magnitudes were found) the center `x5`
appended last.  The boolean is the function's success result. -/
def parkerDualSquares (m : Nat) : List Nat × Bool :=
  let x5 := m / 3
  let mid := m - x5
  let arr := 0 :: dualGo x5 mid 0
  if arr.length < 8 then (arr, false)
  else (arr ++ [x5], true)

/-! ## C9: uniqueness of table magnitudes -/

lemma lt_of_mul_self_lt_mul_self {m n : Nat} (h : m * m < n * n) : m < n := by
  by_contra hle
  push_neg at hle
  exact absurd (Nat.mul_le_mul hle hle) (by omega)

/-- Every element produced by `dualGo` from position `xCount` (with the
center a perfect square and `mid = 2 * x5`) is either a kept square `d*d`
or its counterpart `2*x5 - d*d` for some later count `d` with `d*d < x5`,
and the produced list has no duplicates. -/
lemma dualGo_spec (x5 r : Nat) (hx5 : x5 = r * r) :
    ∀ k xCount, x5 - xCount ≤ k →
      (dualGo x5 (2 * x5) xCount).Nodup ∧
      ∀ e ∈ dualGo x5 (2 * x5) xCount,
        ∃ d, xCount < d ∧ d * d < x5 ∧ (e = d * d ∨ e = 2 * x5 - d * d) := by
  intro k
  induction k with
  | zero =>
    intro xCount hk
    have hstop : ¬ xCount * xCount < x5 := by
      rcases Nat.eq_zero_or_pos xCount with h0 | h1
      · omega
      · have : xCount ≤ xCount * xCount := Nat.le_mul_of_pos_left _ h1
        omega
    rw [dualGo, dif_neg hstop]
    simp
  | succ k ih =>
    intro xCount hk
    by_cases h : xCount * xCount < x5
    · have hxlt : xCount < x5 := by
        rcases Nat.eq_zero_or_pos xCount with h0 | h1
        · omega
        · have : xCount ≤ xCount * xCount := Nat.le_mul_of_pos_left _ h1
          omega
      have hrec := ih (xCount + 1) (by omega)
      have hcr : xCount + 1 ≤ r := by
        have : xCount < r := lt_of_mul_self_lt_mul_self (by omega : xCount * xCount < r * r)
        omega
      rw [dualGo, dif_pos h]
      simp only
      by_cases hsq : ParkerIsSquareB ((2 * x5 : Nat) - ((xCount + 1) * (xCount + 1) : Nat) : Int) = false
      · rw [if_pos hsq]
        refine ⟨hrec.1, fun e he => ?_⟩
        obtain ⟨d, hd1, hd2, hd3⟩ := hrec.2 e he
        exact ⟨d, by omega, hd2, hd3⟩
      · rw [if_neg hsq]
        by_cases heq : (((xCount + 1) * (xCount + 1) : Nat) : Int)
            = ((2 * x5 : Nat) - ((xCount + 1) * (xCount + 1) : Nat) : Int)
        · rw [if_pos heq]
          refine ⟨hrec.1, fun e he => ?_⟩
          obtain ⟨d, hd1, hd2, hd3⟩ := hrec.2 e he
          exact ⟨d, by omega, hd2, hd3⟩
        · rw [if_neg heq]
          -- the kept pair: the square `c*c` is strictly below the center
          have hcsq : (xCount + 1) * (xCount + 1) < x5 := by
            rcases Nat.lt_or_ge (xCount + 1) r with hlt | hge
            · have := Nat.mul_self_lt_mul_self hlt
              omega
            · have hc : xCount + 1 = r := by omega
              exfalso
              apply heq
              subst hc
              rw [← hx5]
              push_cast
              omega
          have htn : ((2 * x5 : Nat) - ((xCount + 1) * (xCount + 1) : Nat) : Int).toNat
              = 2 * x5 - (xCount + 1) * (xCount + 1) := by
            rw [Int.toNat_sub]
          rw [htn]
          set c := xCount + 1 with hc
          set sq := c * c with hsqdef
          set cnt := 2 * x5 - sq with hcnt
          have hcntgt : x5 < cnt := by omega
          constructor
          · -- Nodup of sq :: cnt :: rest
            refine List.nodup_cons.mpr ⟨?_, List.nodup_cons.mpr ⟨?_, hrec.1⟩⟩
            · intro hmem
              rcases List.mem_cons.mp hmem with h1 | h2
              · omega
              · obtain ⟨d, hd1, hd2, hd3⟩ := hrec.2 _ h2
                have : sq < d * d := by
                  have := Nat.mul_self_lt_mul_self hd1
                  omega
                rcases hd3 with h | h <;> omega
            · intro hmem
              obtain ⟨d, hd1, hd2, hd3⟩ := hrec.2 _ hmem
              have : sq < d * d := by
                have := Nat.mul_self_lt_mul_self hd1
                omega
              rcases hd3 with h | h <;> omega
          · intro e he
            rcases List.mem_cons.mp he with rfl | he2
            · exact ⟨c, by omega, hcsq, Or.inl rfl⟩
            · rcases List.mem_cons.mp he2 with rfl | he3
              · exact ⟨c, by omega, hcsq, Or.inr rfl⟩
              · obtain ⟨d, hd1, hd2, hd3⟩ := hrec.2 _ he3
                exact ⟨d, by omega, hd2, hd3⟩
    · rw [dualGo, dif_neg h]
      simp

/-- C9: every magnitude stored in the value table is unique.  Generic mode:
the entries `i ^ power` for `i = 0..size` are pairwise distinct whenever
`power ≥ 1`.  Dual-square mode: when the magic number is divisible by 3 and
`magicNumber / 3` is a perfect square, the table built by
`_parkerDualSquares` (sentinel 0, kept pairs, appended center) contains no
magnitude twice. -/
theorem parker_table_magnitudes_unique :
    (∀ power size, 1 ≤ power → (parkerArrNumbers power size).Nodup) ∧
    (∀ m r : Nat, m % 3 = 0 → m / 3 = r * r → ((parkerDualSquares m).1).Nodup) := by
  constructor
  · intro power size hp
    exact (List.nodup_range _).map (Nat.pow_left_injective (by omega))
  · intro m r h3 hsq
    have hmid : m - m / 3 = 2 * (m / 3) := by omega
    have hspec := dualGo_spec (m / 3) r hsq (m / 3) 0 (by omega)
    have hzero : (0 : Nat) ∉ dualGo (m / 3) (2 * (m / 3)) 0 := by
      intro hmem
      obtain ⟨d, hd1, hd2, hd3⟩ := hspec.2 _ hmem
      have : 1 ≤ d * d := Nat.one_le_iff_ne_zero.mpr (by positivity)
      rcases hd3 with h | h <;> omega
    have hx5 : (m / 3) ∉ dualGo (m / 3) (2 * (m / 3)) 0 := by
      intro hmem
      obtain ⟨d, hd1, hd2, hd3⟩ := hspec.2 _ hmem
      rcases hd3 with h | h <;> omega
    unfold parkerDualSquares
    simp only [hmid]
    by_cases hlen : (0 :: dualGo (m / 3) (2 * (m / 3)) 0).length < 8
    · rw [if_pos hlen]
      exact List.nodup_cons.mpr ⟨hzero, hspec.1⟩
    · rw [if_neg hlen]
      refine List.Nodup.append (List.nodup_cons.mpr ⟨hzero, hspec.1⟩) (List.nodup_singleton _) ?_
      intro a ha hb
      have hax5 : a = m / 3 := by simpa using hb
      rcases List.mem_cons.mp ha with rfl | hmem
      · -- then m / 3 = 0, but the list is long enough to contain a kept pair
        rcases hlist : dualGo (m / 3) (2 * (m / 3)) 0 with _ | ⟨e, rest⟩
        · rw [hlist] at hlen; simp at hlen
        · have he : e ∈ dualGo (m / 3) (2 * (m / 3)) 0 := by
            rw [hlist]; exact List.mem_cons_self _ _
          obtain ⟨d, hd1, hd2, hd3⟩ := hspec.2 _ he
          omega
      · rw [hax5] at hmem
        exact hx5 hmem

/-- Witness for C9 at `power = 2, size = 5` and `m = 75 = 3 · 5²`. -/
theorem parker_table_magnitudes_unique_witness :
    (1 ≤ 2 ∧ (parkerArrNumbers 2 5).Nodup) ∧
    (75 % 3 = 0 ∧ 75 / 3 = 5 * 5 ∧ ((parkerDualSquares 75).1).Nodup) :=
  ⟨⟨by decide, parker_table_magnitudes_unique.1 2 5 (by decide)⟩,
   ⟨by decide, by decide, parker_table_magnitudes_unique.2 75 5 (by decide) (by decide)⟩⟩

/-! ## The backtracking search engine (`_parkerSearch`)

State: `glbMatrix` (10 slots, slot 0 an unused sentinel, 1-based fields) and
the cursor `glbCntSearch`.  A plan entry carries the grid field, the
optional pair of fields to derive from (`calc`), and the optional list of
fields whose maximum seeds the enumeration (`start`).  `calc` is a Lean
keyword, so the field is named `calcFields`. -/

structure SearchEntry where
  field : Nat
  calcFields : Option (Nat × Nat)
  start : Option (List Nat)
deriving DecidableEq, Repr

structure PSState where
  matrix : List Nat
  cnt : Nat
deriving DecidableEq, Repr

/-- `while newValue in glbMatrix: newValue += 1`, as a fuelled structural
recursion.  The fuel `m.foldr max 0 + 1` in `nextFree` always suffices:
every value the loop skips over is a member of `m` and hence at most the
maximum, so the loop leaves the range after at most `max + 1` steps; when
the fuel runs out the current value is already free (`nextFree_spec`). -/
def nextFreeAux (m : List Nat) : Nat → Nat → Nat
  | 0, v => v
  | fuel + 1, v => if v ∈ m then nextFreeAux m fuel (v + 1) else v

def nextFree (m : List Nat) (v : Nat) : Nat :=
  nextFreeAux m (m.foldr max 0 + 1) v

lemma mem_le_foldr_max {m : List Nat} {v : Nat} (h : v ∈ m) : v ≤ m.foldr max 0 := by
  induction m with
  | nil => cases h
  | cons a t ih =>
    rcases List.mem_cons.mp h with rfl | hmem
    · simp
    · simpa using Or.inr (ih hmem)

lemma nextFreeAux_spec (m : List Nat) :
    ∀ fuel v, m.foldr max 0 < v + fuel →
      nextFreeAux m fuel v ∉ m ∧ v ≤ nextFreeAux m fuel v := by
  intro fuel
  induction fuel with
  | zero =>
    intro v hv
    have : v ∉ m := fun hmem => by have := mem_le_foldr_max hmem; omega
    exact ⟨this, le_rfl⟩
  | succ k ih =>
    intro v hv
    by_cases hmem : v ∈ m
    · rw [nextFreeAux, if_pos hmem]
      obtain ⟨h1, h2⟩ := ih (v + 1) (by omega)
      exact ⟨h1, by omega⟩
    · rw [nextFreeAux, if_neg hmem]
      exact ⟨hmem, le_rfl⟩

lemma nextFree_spec (m : List Nat) (v : Nat) :
    nextFree m v ∉ m ∧ v ≤ nextFree m v :=
  nextFreeAux_spec m (m.foldr max 0 + 1) v (by omega)

/-- Table magnitude at grid position `i`: `glbArrNumbers[glbMatrix[i]]`. -/
def tableAt (arr mat : List Nat) (i : Nat) : Nat := arr.getD (mat.getD i 0) 0

/-- The verification in `_parkerPrintMatrix` (parkersquare.py lines
224-245): all 3 row sums, 3 column sums and 2 diagonal sums of the
table-resolved magnitudes must equal the magic number. -/
def parkerVerify (arr mat : List Nat) (magic : Nat) : Bool :=
  decide (tableAt arr mat 1 + tableAt arr mat 2 + tableAt arr mat 3 = magic) &&
  decide (tableAt arr mat 4 + tableAt arr mat 5 + tableAt arr mat 6 = magic) &&
  decide (tableAt arr mat 7 + tableAt arr mat 8 + tableAt arr mat 9 = magic) &&
  decide (tableAt arr mat 1 + tableAt arr mat 4 + tableAt arr mat 7 = magic) &&
  decide (tableAt arr mat 2 + tableAt arr mat 5 + tableAt arr mat 8 = magic) &&
  decide (tableAt arr mat 3 + tableAt arr mat 6 + tableAt arr mat 9 = magic) &&
  decide (tableAt arr mat 1 + tableAt arr mat 5 + tableAt arr mat 9 = magic) &&
  decide (tableAt arr mat 3 + tableAt arr mat 5 + tableAt arr mat 7 = magic)

/-- The derived-field part of one loop iteration (parkersquare.py lines
399-428, parkersquare2.py lines 483-520): clear-and-backtrack when the slot
is filled; otherwise compute
`fldValue = glbMagicNumber - glbArrNumbers[fldPos1] - glbArrNumbers[fldPos2]`,
reject non-positive values, values missing from the table, and indices
already used in the grid (backtracking one step, grid untouched), else
store the resolved index and advance.  The value-to-index conversion is the
first-match scan of parkersquare2 (the `glbArrValues` dictionary of
parkersquare agrees with it because the table magnitudes are distinct). -/
def searchFill (arr : List Nat) (magic f c1 c2 : Nat) (st : PSState) : PSState :=
  if st.matrix.getD f 0 ≠ 0 then ⟨st.matrix.set f 0, st.cnt - 1⟩
  else
    let p1 := st.matrix.getD c1 0
    let p2 := st.matrix.getD c2 0
    let v : Int := (magic : Int) - (arr.getD p1 0 : Int) - (arr.getD p2 0 : Int)
    if v ≤ 0 then ⟨st.matrix, st.cnt - 1⟩
    else
      match arr.findIdx? (fun w => w == v.toNat) with
      | none => ⟨st.matrix, st.cnt - 1⟩
      | some idx =>
        if idx ∈ st.matrix then ⟨st.matrix, st.cnt - 1⟩
        else ⟨st.matrix.set f idx, st.cnt + 1⟩

/-- Seeding of an empty enumerated slot from the `start` fields:
`newValue = max over start fields` is written into the slot before the
increment (parkersquare.py lines 373-379). -/
def seedMatrix (m0 : List Nat) (fld : Nat) (start : Option (List Nat)) : List Nat :=
  if m0.getD fld 0 = 0 then
    match start with
    | none => m0
    | some l => m0.set fld (l.foldl (fun acc i => max acc (m0.getD i 0)) 0)
  else m0

/-- The enumerated-field branch of one loop iteration (parkersquare.py
lines 371-397): seed the slot, take the next value not present anywhere in
the matrix, backtrack (clearing the slot) when it exceeds `maxSearch`,
otherwise store it and advance. -/
def enumStep (maxSearch fld : Nat) (start : Option (List Nat)) (st : PSState) : PSState :=
  let m1 := seedMatrix st.matrix fld start
  let w := nextFree m1 (m1.getD fld 0 + 1)
  if maxSearch < w then ⟨m1.set fld 0, st.cnt - 1⟩
  else ⟨m1.set fld w, st.cnt + 1⟩

/-- One full iteration of the `while checkSearch < glbCntSearch <= 9` loop
body.  The second component is the solution emitted by this iteration
(`_parkerPrintMatrix` succeeded after the cursor passed 9), if any.
After a derived fill advances the cursor past 9 the grid is verified: on
failure the cursor steps back; on success the grid is emitted and, in
brute-force mode, the cursor steps back to keep searching for further
solutions. -/
def searchBody (plan : Nat → SearchEntry) (arr : List Nat) (magic maxSearch : Nat)
    (brute : Bool) (st : PSState) : PSState × Option (List Nat) :=
  let e := plan st.cnt
  match e.calcFields with
  | none => (enumStep maxSearch e.field e.start st, none)
  | some (c1, c2) =>
    let st1 := searchFill arr magic e.field c1 c2 st
    if 9 < st1.cnt then
      if parkerVerify arr st1.matrix magic then
        (⟨st1.matrix, if brute then st1.cnt - 1 else st1.cnt⟩, some st1.matrix)
      else (⟨st1.matrix, st1.cnt - 1⟩, none)
    else (st1, none)

/-- The search loop, with fuel bounding the number of iterations.  Returns
the final state and the list of emitted solution grids in order. -/
def searchRun (plan : Nat → SearchEntry) (arr : List Nat) (magic maxSearch checkSearch : Nat)
    (brute : Bool) : Nat → PSState → List (List Nat) → PSState × List (List Nat)
  | 0, st, acc => (st, acc)
  | fuel + 1, st, acc =>
    if checkSearch < st.cnt ∧ st.cnt ≤ 9 then
      let p := searchBody plan arr magic maxSearch brute st
      searchRun plan arr magic maxSearch checkSearch brute fuel p.1 (acc ++ p.2.toList)
    else (st, acc)

/-- Brute-force search order (parkersquare.py lines 182-191; also the fixed
order of parkersquare2.py lines 426-435). -/
def bruteForcePlan : Nat → SearchEntry
  | 1 => ⟨1, none, none⟩
  | 2 => ⟨3, none, none⟩
  | 3 => ⟨2, some (1, 3), none⟩
  | 4 => ⟨5, none, none⟩
  | 5 => ⟨7, some (3, 5), none⟩
  | 6 => ⟨4, some (1, 7), none⟩
  | 7 => ⟨6, some (4, 5), none⟩
  | 8 => ⟨8, some (2, 5), none⟩
  | 9 => ⟨9, some (3, 6), none⟩
  | _ => ⟨0, none, none⟩

/-- Power-1 search order (parkersquare.py lines 193-202). -/
def power1Plan : Nat → SearchEntry
  | 1 => ⟨5, none, none⟩
  | 2 => ⟨1, none, none⟩
  | 3 => ⟨9, some (1, 5), none⟩
  | 4 => ⟨3, none, some [1]⟩
  | 5 => ⟨2, some (1, 3), none⟩
  | 6 => ⟨6, some (3, 9), none⟩
  | 7 => ⟨4, some (5, 6), none⟩
  | 8 => ⟨8, some (2, 5), none⟩
  | 9 => ⟨7, some (1, 4), none⟩
  | _ => ⟨0, none, none⟩

/-- General (power ≥ 2) search order (parkersquare.py lines 205-214). -/
def generalPlan : Nat → SearchEntry
  | 1 => ⟨1, none, none⟩
  | 2 => ⟨3, none, some [1]⟩
  | 3 => ⟨2, some (1, 3), none⟩
  | 4 => ⟨5, none, some [3]⟩
  | 5 => ⟨7, some (3, 5), none⟩
  | 6 => ⟨4, some (1, 7), none⟩
  | 7 => ⟨6, some (4, 5), none⟩
  | 8 => ⟨8, some (2, 5), none⟩
  | 9 => ⟨9, some (3, 6), none⟩
  | _ => ⟨0, none, none⟩

/-! ## Checkpoint store (`_parkerStateSave` / `_parkerStateRead`,
parkersquare.py lines 270-304)

The state file holds a JSON object `{"glbCntSearch": cnt, "glbMatrix": mat}`.
`_parkerStateRead` returns silently when the file is absent; a file that
`json.load` cannot parse raises an exception that propagates out of the
search (caught only by the outer main loop); a parsed object is adopted
verbatim when the `glbCntSearch` key is present, with no structural
validation of the stored cursor or grid. -/

inductive StateFile where
  | absent
  | corrupt
  | parsed (cntKey : Option Nat) (matrixVal : List Nat)
deriving DecidableEq, Repr

def parkerStateSave (st : PSState) : StateFile :=
  .parsed (some st.cnt) st.matrix

def parkerStateRead (file : StateFile) (st : PSState) : Except Unit PSState :=
  match file with
  | .absent => .ok st
  | .corrupt => .error ()
  | .parsed cntKey matrixVal =>
    match cntKey with
    | some c => .ok ⟨matrixVal, c⟩
    | none => .ok st

/-- C7 counterexample: a corrupt (unparsable) checkpoint does *not* behave
as if no checkpoint were present — `json.load` raises and the error escapes
`_parkerStateRead`, aborting that search — and a structurally invalid
checkpoint (here a grid with duplicate non-zero values) is adopted verbatim
rather than rejected. -/
theorem parkerStateRead_corrupt_not_fresh :
    parkerStateRead .corrupt ⟨List.replicate 10 0, 1⟩ = .error () ∧
    parkerStateRead (.parsed (some 5) [0, 1, 1, 1, 1, 1, 1, 1, 1, 1]) ⟨List.replicate 10 0, 1⟩
      = .ok ⟨[0, 1, 1, 1, 1, 1, 1, 1, 1, 1], 5⟩ :=
  ⟨rfl, rfl⟩

/-- C7 amended: an absent checkpoint file, or a parsed object without the
`glbCntSearch` key, leaves the fresh initial state untouched; a corrupt
checkpoint raises an error that escapes (aborting that search); a parsed
checkpoint with the key is adopted exactly as stored, without any
structural validation. -/
theorem parkerStateRead_behaviour :
    (∀ st : PSState, parkerStateRead .absent st = .ok st) ∧
    (∀ (st : PSState) (mat : List Nat), parkerStateRead (.parsed none mat) st = .ok st) ∧
    (∀ st : PSState, parkerStateRead .corrupt st = .error ()) ∧
    (∀ (st : PSState) (c : Nat) (mat : List Nat),
      parkerStateRead (.parsed (some c) mat) st = .ok ⟨mat, c⟩) :=
  ⟨fun _ => rfl, fun _ _ => rfl, fun _ => rfl, fun _ _ _ => rfl⟩

/-- C8: saving the engine state mid-search and loading it into a fresh
engine for the same magic number and configuration (same plan, table, magic
number, bounds — all deterministic functions of the configuration)
reproduces the continued run exactly: the loaded state overrides the fresh
initial state completely, and the subsequent iterations emit the same
solutions in the same order as the uninterrupted run from the saved state. -/
theorem checkpoint_roundtrip_resume
    (plan : Nat → SearchEntry) (arr : List Nat) (magic maxSearch checkSearch : Nat)
    (brute : Bool) (fuel : Nat) (st freshInit : PSState) :
    parkerStateRead (parkerStateSave st) freshInit = .ok st ∧
    (∀ resumed : PSState, parkerStateRead (parkerStateSave st) freshInit = .ok resumed →
      searchRun plan arr magic maxSearch checkSearch brute fuel resumed [] =
      searchRun plan arr magic maxSearch checkSearch brute fuel st []) := by
  refine ⟨rfl, fun resumed h => ?_⟩
  cases h
  rfl

/-- Witness for C8: a concrete save/load round trip on a mid-search state
of the power-1 plan, with the resumed run evaluated on a small instance. -/
theorem checkpoint_roundtrip_resume_witness :
    parkerStateRead (parkerStateSave ⟨[0, 1, 0, 0, 0, 5, 0, 0, 0, 9], 3⟩)
        ⟨(List.replicate 10 0).set 5 5, 2⟩ = .ok ⟨[0, 1, 0, 0, 0, 5, 0, 0, 0, 9], 3⟩ ∧
    searchRun power1Plan (parkerArrNumbers 1 12) 15 6 1 false 4
        ⟨[0, 1, 0, 0, 0, 5, 0, 0, 0, 9], 3⟩ [] =
      searchRun power1Plan (parkerArrNumbers 1 12) 15 6 1 false 4
        ⟨[0, 1, 0, 0, 0, 5, 0, 0, 0, 9], 3⟩ [] :=
  ⟨(checkpoint_roundtrip_resume power1Plan (parkerArrNumbers 1 12) 15 6 1 false 4
      ⟨[0, 1, 0, 0, 0, 5, 0, 0, 0, 9], 3⟩ ⟨(List.replicate 10 0).set 5 5, 2⟩).1,
   (checkpoint_roundtrip_resume power1Plan (parkerArrNumbers 1 12) 15 6 1 false 4
      ⟨[0, 1, 0, 0, 0, 5, 0, 0, 0, 9], 3⟩ ⟨(List.replicate 10 0).set 5 5, 2⟩).2
     ⟨[0, 1, 0, 0, 0, 5, 0, 0, 0, 9], 3⟩ rfl⟩

lemma not_mem_of_findIdx?_eq_none {arr : List Nat} {v : Nat}
    (h : arr.findIdx? (fun w => w == v) = none) : v ∉ arr := by
  intro hmem
  have := List.findIdx?_eq_none_iff.mp h v hmem
  simp at this

lemma findIdx?_eq_none_of_not_mem {arr : List Nat} {v : Nat}
    (h : v ∉ arr) : arr.findIdx? (fun w => w == v) = none := by
  rw [List.findIdx?_eq_none_iff]
  intro x hx
  simp only [beq_eq_false_iff_ne, ne_eq]
  exact fun hxv => h (hxv ▸ hx)

/-- C2: in the search engine, a plan step for a derived field whose grid
slot is empty computes
`value = magicNumber − table[grid[calcField1]] − table[grid[calcField2]]`;
if `value ≤ 0`, or `value` is not a magnitude present in the value table,
or the resolved table index already occurs in the grid, the cursor moves
back one step with the slot left empty and the whole grid unchanged;
otherwise the slot is filled with the resolved index and the cursor
advances by one. -/
theorem derived_field_empty_transition
    (arr : List Nat) (magic f c1 c2 : Nat) (st : PSState)
    (hempty : st.matrix.getD f 0 = 0) (v : Int)
    (hv : v = (magic : Int) - (arr.getD (st.matrix.getD c1 0) 0 : Int)
            - (arr.getD (st.matrix.getD c2 0) 0 : Int)) :
    (v ≤ 0 → searchFill arr magic f c1 c2 st = ⟨st.matrix, st.cnt - 1⟩) ∧
    (0 < v → v.toNat ∉ arr → searchFill arr magic f c1 c2 st = ⟨st.matrix, st.cnt - 1⟩) ∧
    (∀ idx, 0 < v → arr.findIdx? (fun w => w == v.toNat) = some idx → idx ∈ st.matrix →
      searchFill arr magic f c1 c2 st = ⟨st.matrix, st.cnt - 1⟩) ∧
    (∀ idx, 0 < v → arr.findIdx? (fun w => w == v.toNat) = some idx → idx ∉ st.matrix →
      searchFill arr magic f c1 c2 st = ⟨st.matrix.set f idx, st.cnt + 1⟩) := by
  subst hv
  refine ⟨fun hle => ?_, fun hpos hnm => ?_, fun idx hpos hfind hmem => ?_,
    fun idx hpos hfind hmem => ?_⟩
  · simp only [searchFill]
    rw [if_neg (not_not_intro hempty), if_pos hle]
  · simp only [searchFill]
    rw [if_neg (not_not_intro hempty), if_neg (not_le.mpr hpos),
      findIdx?_eq_none_of_not_mem hnm]
  · simp only [searchFill]
    rw [if_neg (not_not_intro hempty), if_neg (not_le.mpr hpos), hfind]
    simp only
    rw [if_pos hmem]
  · simp only [searchFill]
    rw [if_neg (not_not_intro hempty), if_neg (not_le.mpr hpos), hfind]
    simp only
    rw [if_neg hmem]

/-- Witness for C2: concrete instances of the reject branch (`value ≤ 0`)
and of the fill branch.  Table `[0,1,4,9,16,25]`, magic number 14, grid
holding indices 2 and 3 at fields 1 and 3: the derived value is
`14 − 4 − 9 = 1`, resolved to index 1, which is fresh, so field 5 is filled
with 1 and the cursor advances from 4 to 5. -/
theorem derived_field_empty_transition_witness :
    searchFill [0, 1, 4, 9, 16, 25] 14 5 1 3 ⟨[0, 2, 0, 3, 0, 0, 0, 0, 0, 0], 4⟩
      = ⟨[0, 2, 0, 3, 0, 1, 0, 0, 0, 0], 5⟩ ∧
    searchFill [0, 1, 4, 9, 16, 25] 5 5 1 3 ⟨[0, 2, 0, 3, 0, 0, 0, 0, 0, 0], 4⟩
      = ⟨[0, 2, 0, 3, 0, 0, 0, 0, 0, 0], 3⟩ := by
  constructor
  · have h := (derived_field_empty_transition [0, 1, 4, 9, 16, 25] 14 5 1 3
      ⟨[0, 2, 0, 3, 0, 0, 0, 0, 0, 0], 4⟩ (by decide) 1 (by decide)).2.2.2 1
      (by decide) (by decide) (by decide)
    simpa using h
  · have h := (derived_field_empty_transition [0, 1, 4, 9, 16, 25] 5 5 1 3
      ⟨[0, 2, 0, 3, 0, 0, 0, 0, 0, 0], 4⟩ (by decide) (-8) (by decide)).1 (by decide)
    simpa using h

/-! ## C1: solved grids are distinct and magic

Invariants maintained by the search loop: the matrix has 10 slots with the
sentinel slot 0 equal to 0 and pairwise-distinct non-zero entries, and every
plan step below the cursor (or at most `checkSearch`, for pre-seeded steps)
has its field filled. -/

lemma getD_set_self {m : List Nat} {f : Nat} (hf : f < m.length) (w : Nat) :
    (m.set f w).getD f 0 = w := by
  simp [List.getD_eq_getElem?_getD, List.getElem?_set, hf]

lemma getD_set_ne {m : List Nat} {f i : Nat} (h : i ≠ f) (w : Nat) :
    (m.set f w).getD i 0 = m.getD i 0 := by
  simp [List.getD_eq_getElem?_getD, List.getElem?_set, Ne.symm h]

lemma getD_mem {m : List Nat} {i : Nat} (h : i < m.length) : m.getD i 0 ∈ m := by
  rw [List.getD_eq_getElem?_getD, List.getElem?_eq_getElem h]
  exact List.getElem_mem h

lemma getD_eq_getElem {m : List Nat} {i : Nat} (h : i < m.length) :
    m.getD i 0 = m[i] := by
  rw [List.getD_eq_getElem?_getD, List.getElem?_eq_getElem h]
  rfl

/-- The sanity conditions on a search plan satisfied by the three concrete
plans: steps 1..9 name fields 1..9, injectively and covering all nine. -/
def GoodPlan (plan : Nat → SearchEntry) : Prop :=
  (∀ j, j < 10 → 1 ≤ j → 1 ≤ (plan j).field ∧ (plan j).field ≤ 9) ∧
  (∀ i, i < 10 → ∀ j, j < 10 → 1 ≤ i → 1 ≤ j → (plan i).field = (plan j).field → i = j) ∧
  (∀ s, s < 10 → 1 ≤ s → ∃ j, j < 10 ∧ 1 ≤ j ∧ (plan j).field = s)

/-- 10 slots, zero sentinel, pairwise-distinct non-zero entries. -/
def GoodMatrix (mat : List Nat) : Prop :=
  mat.length = 10 ∧ mat.getD 0 0 = 0 ∧
  ∀ i, i < 10 → ∀ j, j < 10 → i ≠ j → mat.getD i 0 ≠ 0 → mat.getD i 0 ≠ mat.getD j 0

/-- Every plan step `j` with `j ≤ cs` (pre-seeded) or `j < cnt` (already
descended through) has a non-empty grid slot. -/
def FilledUpto (plan : Nat → SearchEntry) (cs cnt : Nat) (mat : List Nat) : Prop :=
  ∀ j, j < 10 → 1 ≤ j → (j ≤ cs ∨ j < cnt) → mat.getD (plan j).field 0 ≠ 0

def GoodState (plan : Nat → SearchEntry) (cs : Nat) (st : PSState) : Prop :=
  GoodMatrix st.matrix ∧ FilledUpto plan cs st.cnt st.matrix

/-- What claim C1 asserts of every emitted grid: the nine slots hold
pairwise-distinct non-empty table indices, and the 8 table-resolved line
sums (3 rows, 3 columns, 2 diagonals) equal the magic number exactly. -/
def EmitOK (arr : List Nat) (magic : Nat) (g : List Nat) : Prop :=
  (∀ i, i < 10 → 1 ≤ i → g.getD i 0 ≠ 0) ∧
  (∀ i, i < 10 → ∀ j, j < 10 → 1 ≤ i → 1 ≤ j → i ≠ j → g.getD i 0 ≠ g.getD j 0) ∧
  tableAt arr g 1 + tableAt arr g 2 + tableAt arr g 3 = magic ∧
  tableAt arr g 4 + tableAt arr g 5 + tableAt arr g 6 = magic ∧
  tableAt arr g 7 + tableAt arr g 8 + tableAt arr g 9 = magic ∧
  tableAt arr g 1 + tableAt arr g 4 + tableAt arr g 7 = magic ∧
  tableAt arr g 2 + tableAt arr g 5 + tableAt arr g 8 = magic ∧
  tableAt arr g 3 + tableAt arr g 6 + tableAt arr g 9 = magic ∧
  tableAt arr g 1 + tableAt arr g 5 + tableAt arr g 9 = magic ∧
  tableAt arr g 3 + tableAt arr g 5 + tableAt arr g 7 = magic

lemma zero_mem_of_goodMatrix {m : List Nat} (hm : GoodMatrix m) : (0 : Nat) ∈ m := by
  have hlen := hm.1
  have := getD_mem (m := m) (i := 0) (by omega)
  rwa [hm.2.1] at this

lemma goodMatrix_set_zero {m : List Nat} (hm : GoodMatrix m) {f : Nat}
    (hf1 : 1 ≤ f) (hf9 : f ≤ 9) : GoodMatrix (m.set f 0) := by
  obtain ⟨hlen, h0, hdist⟩ := hm
  have hflt : f < m.length := by omega
  refine ⟨by simp [hlen], ?_, ?_⟩
  · rw [getD_set_ne (by omega)]; exact h0
  · intro i hi j hj hij hne
    by_cases hif : i = f
    · subst hif
      rw [getD_set_self hflt] at hne
      exact absurd rfl hne
    · rw [getD_set_ne hif] at hne ⊢
      by_cases hjf : j = f
      · subst hjf
        rw [getD_set_self hflt]
        exact hne
      · rw [getD_set_ne hjf]
        exact hdist i hi j hj hij hne

lemma goodMatrix_set_fresh {m : List Nat} (hm : GoodMatrix m) {f w : Nat}
    (hf1 : 1 ≤ f) (hf9 : f ≤ 9) (hw : w ∉ m) : GoodMatrix (m.set f w) := by
  obtain ⟨hlen, h0, hdist⟩ := hm
  have hflt : f < m.length := by omega
  have hwne : ∀ j, j < 10 → w ≠ m.getD j 0 := fun j hj heq =>
    hw (heq ▸ getD_mem (by omega : j < m.length))
  refine ⟨by simp [hlen], ?_, ?_⟩
  · rw [getD_set_ne (by omega)]; exact h0
  · intro i hi j hj hij hne
    by_cases hif : i = f
    · subst hif
      rw [getD_set_self hflt] at hne ⊢
      rw [getD_set_ne (fun h => hij h.symm)]
      exact hwne j hj
    · rw [getD_set_ne hif] at hne ⊢
      by_cases hjf : j = f
      · subst hjf
        rw [getD_set_self hflt]
        exact fun heq => (hwne i hi) heq.symm
      · rw [getD_set_ne hjf]
        exact hdist i hi j hj hij hne

lemma filledUpto_mono {plan : Nat → SearchEntry} {cs m} {a b : Nat}
    (h : FilledUpto plan cs b m) (hab : a ≤ b) : FilledUpto plan cs a m := by
  intro j hj hj1 hle
  rcases hle with hle | hle
  · exact h j hj hj1 (Or.inl hle)
  · exact h j hj hj1 (Or.inr (by omega))

lemma filledUpto_backtrack {plan : Nat → SearchEntry} (hplan : GoodPlan plan)
    {cs cnt : Nat} {m : List Nat} (hfil : FilledUpto plan cs cnt m)
    (hlo : cs < cnt) (h1 : 1 ≤ cnt) (h9 : cnt ≤ 9) (x : Nat) :
    FilledUpto plan cs (cnt - 1) (m.set (plan cnt).field x) := by
  intro j hj hj1 hle
  have hjne : j ≠ cnt := by rcases hle with h | h <;> omega
  have hfne : (plan j).field ≠ (plan cnt).field := fun heq =>
    hjne (hplan.2.1 j hj cnt (by omega) hj1 (by omega) heq)
  rw [getD_set_ne hfne]
  rcases hle with h | h
  · exact hfil j hj hj1 (Or.inl h)
  · exact hfil j hj hj1 (Or.inr (by omega))

lemma filledUpto_advance {plan : Nat → SearchEntry} (hplan : GoodPlan plan)
    {cs cnt : Nat} {m : List Nat} (hlen : m.length = 10)
    (hfil : FilledUpto plan cs cnt m) (h1 : 1 ≤ cnt) (h9 : cnt ≤ 9) {w : Nat}
    (hw : w ≠ 0) :
    FilledUpto plan cs (cnt + 1) (m.set (plan cnt).field w) := by
  intro j hj hj1 hle
  by_cases hjc : j = cnt
  · subst hjc
    have hfb := hplan.1 j hj hj1
    rw [getD_set_self (by omega)]
    exact hw
  · have hfne : (plan j).field ≠ (plan cnt).field := fun heq =>
      hjc (hplan.2.1 j hj cnt (by omega) hj1 (by omega) heq)
    rw [getD_set_ne hfne]
    rcases hle with h | h
    · exact hfil j hj hj1 (Or.inl h)
    · exact hfil j hj hj1 (Or.inr (by omega))

lemma seedMatrix_length (m : List Nat) (fld : Nat) (s : Option (List Nat)) :
    (seedMatrix m fld s).length = m.length := by
  unfold seedMatrix
  split
  · cases s <;> simp
  · rfl

lemma seedMatrix_getD_ne {m : List Nat} {fld i : Nat} (h : i ≠ fld)
    (s : Option (List Nat)) : (seedMatrix m fld s).getD i 0 = m.getD i 0 := by
  unfold seedMatrix
  split
  · cases s with
    | none => rfl
    | some l => exact getD_set_ne h _
  · rfl

lemma seedMatrix_set (m : List Nat) (fld : Nat) (s : Option (List Nat)) (x : Nat) :
    (seedMatrix m fld s).set fld x = m.set fld x := by
  unfold seedMatrix
  split
  · cases s with
    | none => rfl
    | some l => exact List.set_set _ _ _ _
  · rfl

lemma seedMatrix_eq_of_ne_zero {m : List Nat} {fld : Nat}
    (h : ¬ m.getD fld 0 = 0) (s : Option (List Nat)) : seedMatrix m fld s = m := by
  unfold seedMatrix
  rw [if_neg h]

lemma enumStep_good (plan : Nat → SearchEntry) (hplan : GoodPlan plan)
    (maxSearch cs : Nat) (st : PSState) (hlo : cs < st.cnt) (hhi : st.cnt ≤ 9)
    (hm : GoodMatrix st.matrix) (hfil : FilledUpto plan cs st.cnt st.matrix) :
    GoodState plan cs (enumStep maxSearch (plan st.cnt).field (plan st.cnt).start st) := by
  have hcnt1 : 1 ≤ st.cnt := by omega
  obtain ⟨hfb1, hfb9⟩ := hplan.1 st.cnt (by omega) hcnt1
  have hm1len : (seedMatrix st.matrix (plan st.cnt).field (plan st.cnt).start).length = 10 := by
    rw [seedMatrix_length]; exact hm.1
  have hm1slot0 :
      (seedMatrix st.matrix (plan st.cnt).field (plan st.cnt).start).getD 0 0 = 0 := by
    rw [seedMatrix_getD_ne (by omega)]; exact hm.2.1
  obtain ⟨hwmem, hwge⟩ := nextFree_spec
    (seedMatrix st.matrix (plan st.cnt).field (plan st.cnt).start)
    ((seedMatrix st.matrix (plan st.cnt).field (plan st.cnt).start).getD (plan st.cnt).field 0 + 1)
  set m1 := seedMatrix st.matrix (plan st.cnt).field (plan st.cnt).start with hm1eq
  set w := nextFree m1 (m1.getD (plan st.cnt).field 0 + 1) with hweq
  have hw0 : w ≠ 0 := by
    intro h0
    apply hwmem
    rw [h0]
    have := getD_mem (m := m1) (i := 0) (by omega)
    rwa [hm1slot0] at this
  have hlen10 : st.matrix.length = 10 := hm.1
  have hwm0 : w ∉ st.matrix := by
    intro hmem
    obtain ⟨k, hk, hkeq⟩ := List.getElem_of_mem hmem
    by_cases hkf : k = (plan st.cnt).field
    · by_cases hz : st.matrix.getD (plan st.cnt).field 0 = 0
      · apply hw0
        have : st.matrix.getD (plan st.cnt).field 0 = w := by
          rw [← hkf, getD_eq_getElem hk, hkeq]
        rw [this] at hz
        exact hz
      · apply hwmem
        rw [hm1eq, seedMatrix_eq_of_ne_zero hz]
        exact hmem
    · apply hwmem
      have h1 : m1.getD k 0 = st.matrix.getD k 0 := by
        rw [hm1eq]; exact seedMatrix_getD_ne hkf _
      have h2 : st.matrix.getD k 0 = w := by rw [getD_eq_getElem hk, hkeq]
      have h3 := getD_mem (m := m1) (i := k) (by rw [hm1len]; omega)
      rwa [h1, h2] at h3
  rw [show enumStep maxSearch (plan st.cnt).field (plan st.cnt).start st =
      if maxSearch < w then
        (⟨m1.set (plan st.cnt).field 0, st.cnt - 1⟩ : PSState)
      else ⟨m1.set (plan st.cnt).field w, st.cnt + 1⟩ from rfl]
  by_cases hcmp : maxSearch < w
  · rw [if_pos hcmp]
    refine ⟨?_, ?_⟩
    · rw [hm1eq, seedMatrix_set]
      exact goodMatrix_set_zero hm hfb1 hfb9
    · rw [hm1eq, seedMatrix_set]
      exact filledUpto_backtrack hplan hfil hlo hcnt1 hhi 0
  · rw [if_neg hcmp]
    refine ⟨?_, ?_⟩
    · rw [hm1eq, seedMatrix_set]
      exact goodMatrix_set_fresh hm hfb1 hfb9 hwm0
    · rw [hm1eq, seedMatrix_set]
      exact filledUpto_advance hplan hm.1 hfil hcnt1 hhi hw0

/-- The three possible shapes of a `searchFill` result. -/
lemma searchFill_result (arr : List Nat) (magic f c1 c2 : Nat) (st : PSState) :
    (st.matrix.getD f 0 ≠ 0 ∧
      searchFill arr magic f c1 c2 st = ⟨st.matrix.set f 0, st.cnt - 1⟩) ∨
    searchFill arr magic f c1 c2 st = ⟨st.matrix, st.cnt - 1⟩ ∨
    ∃ idx, idx ∉ st.matrix ∧
      searchFill arr magic f c1 c2 st = ⟨st.matrix.set f idx, st.cnt + 1⟩ := by
  unfold searchFill
  split
  · exact Or.inl ⟨by assumption, rfl⟩
  · dsimp only
    split
    · exact Or.inr (Or.inl rfl)
    · split
      · exact Or.inr (Or.inl rfl)
      · split
        · exact Or.inr (Or.inl rfl)
        · exact Or.inr (Or.inr ⟨_, by assumption, rfl⟩)

lemma emitOK_of_filled {plan : Nat → SearchEntry} (hplan : GoodPlan plan)
    {arr : List Nat} {magic cs : Nat} {g : List Nat} (hg : GoodMatrix g)
    (hfil : FilledUpto plan cs 10 g) (hver : parkerVerify arr g magic = true) :
    EmitOK arr magic g := by
  have hnz : ∀ s, s < 10 → 1 ≤ s → g.getD s 0 ≠ 0 := by
    intro s hs hs1
    obtain ⟨j, hj, hj1, hjf⟩ := hplan.2.2 s hs hs1
    have := hfil j hj hj1 (Or.inr hj)
    rwa [hjf] at this
  refine ⟨hnz, ?_, ?_⟩
  · intro i hi j hj hi1 hj1 hij
    exact hg.2.2 i hi j hj hij (hnz i hi hi1)
  · simp only [parkerVerify, Bool.and_eq_true, decide_eq_true_eq] at hver
    obtain ⟨⟨⟨⟨⟨⟨⟨h1, h2⟩, h3⟩, h4⟩, h5⟩, h6⟩, h7⟩, h8⟩ := hver
    exact ⟨h1, h2, h3, h4, h5, h6, h7, h8⟩

lemma searchBody_good (plan : Nat → SearchEntry) (hplan : GoodPlan plan)
    (arr : List Nat) (magic maxSearch : Nat) (brute : Bool) (cs : Nat) (st : PSState)
    (hlo : cs < st.cnt) (hhi : st.cnt ≤ 9) (hst : GoodState plan cs st) :
    GoodState plan cs (searchBody plan arr magic maxSearch brute st).1 ∧
    ∀ g, (searchBody plan arr magic maxSearch brute st).2 = some g →
      EmitOK arr magic g := by
  obtain ⟨hm, hfil⟩ := hst
  have hcnt1 : 1 ≤ st.cnt := by omega
  obtain ⟨hfb1, hfb9⟩ := hplan.1 st.cnt (by omega) hcnt1
  rcases hcalc : (plan st.cnt).calcFields with - | ⟨c1, c2⟩
  · -- enumerated field
    simp only [searchBody, hcalc]
    exact ⟨enumStep_good plan hplan maxSearch cs st hlo hhi hm hfil,
      fun g hg => by cases hg⟩
  · -- derived field
    rcases searchFill_result arr magic (plan st.cnt).field c1 c2 st with
      ⟨hfull, hst1⟩ | hst1 | ⟨idx, hidx, hst1⟩
    · -- slot filled: clear and backtrack
      simp only [searchBody, hcalc, hst1]
      rw [if_neg (by omega : ¬ 9 < st.cnt - 1)]
      exact ⟨⟨goodMatrix_set_zero hm hfb1 hfb9,
        filledUpto_backtrack hplan hfil hlo hcnt1 hhi 0⟩, fun g hg => by cases hg⟩
    · -- rejected value: cursor back, grid unchanged
      simp only [searchBody, hcalc, hst1]
      rw [if_neg (by omega : ¬ 9 < st.cnt - 1)]
      refine ⟨⟨hm, ?_⟩, fun g hg => by cases hg⟩
      show FilledUpto plan cs (st.cnt - 1) st.matrix
      exact filledUpto_mono hfil (by omega)
    · -- filled with fresh index and advanced
      have hidx0 : idx ≠ 0 := fun h => hidx (h ▸ zero_mem_of_goodMatrix hm)
      have hgm : GoodMatrix (st.matrix.set (plan st.cnt).field idx) :=
        goodMatrix_set_fresh hm hfb1 hfb9 hidx
      have hful : FilledUpto plan cs (st.cnt + 1)
          (st.matrix.set (plan st.cnt).field idx) :=
        filledUpto_advance hplan hm.1 hfil hcnt1 hhi hidx0
      simp only [searchBody, hcalc, hst1]
      by_cases hc9 : 9 < st.cnt + 1
      · rw [if_pos hc9]
        have h10 : st.cnt + 1 = 10 := by omega
        have hful10 : FilledUpto plan cs 10 (st.matrix.set (plan st.cnt).field idx) := by
          rw [h10] at hful; exact hful
        by_cases hver :
            parkerVerify arr (st.matrix.set (plan st.cnt).field idx) magic = true
        · rw [if_pos hver]
          refine ⟨⟨hgm, ?_⟩, fun g hg => ?_⟩
          · show FilledUpto plan cs (if brute then st.cnt + 1 - 1 else st.cnt + 1)
              (st.matrix.set (plan st.cnt).field idx)
            exact filledUpto_mono hful10 (by split <;> omega)
          · cases hg
            exact emitOK_of_filled hplan hgm hful10 hver
        · rw [if_neg hver]
          refine ⟨⟨hgm, ?_⟩, fun g hg => by cases hg⟩
          show FilledUpto plan cs (st.cnt + 1 - 1) (st.matrix.set (plan st.cnt).field idx)
          exact filledUpto_mono hful10 (by omega)
      · rw [if_neg hc9]
        exact ⟨⟨hgm, hful⟩, fun g hg => by cases hg⟩

lemma searchRun_good (plan : Nat → SearchEntry) (hplan : GoodPlan plan)
    (arr : List Nat) (magic maxSearch cs : Nat) (brute : Bool) :
    ∀ (fuel : Nat) (st : PSState) (acc : List (List Nat)),
      GoodState plan cs st → (∀ g ∈ acc, EmitOK arr magic g) →
      ∀ g ∈ (searchRun plan arr magic maxSearch cs brute fuel st acc).2,
        EmitOK arr magic g := by
  intro fuel
  induction fuel with
  | zero =>
    intro st acc _ hacc
    simpa [searchRun] using hacc
  | succ k ih =>
    intro st acc hst hacc
    rw [searchRun]
    by_cases hguard : cs < st.cnt ∧ st.cnt ≤ 9
    · rw [if_pos hguard]
      obtain ⟨hgood, hemit⟩ :=
        searchBody_good plan hplan arr magic maxSearch brute cs st hguard.1 hguard.2 hst
      refine ih _ _ hgood ?_
      intro g hg
      rcases List.mem_append.mp hg with h | h
      · exact hacc g h
      · cases hp : (searchBody plan arr magic maxSearch brute st).2 with
        | none => rw [hp] at h; cases h
        | some g0 =>
          rw [hp] at h
          simp only [Option.toList_some, List.mem_singleton] at h
          subst h
          exact hemit g hp
    · rw [if_neg hguard]
      exact hacc

/-- C1: whenever the search engine reports a grid as solved — the cursor
has advanced past position 9 and the final `_parkerPrintMatrix`
verification passes — the emitted 3×3 grid holds 9 pairwise-distinct
non-empty table indices and all 8 table-resolved line sums (3 rows,
3 columns, 2 diagonals) equal the magic number exactly. -/
theorem solved_grid_distinct_and_magic
    (plan : Nat → SearchEntry) (arr : List Nat) (magic maxSearch checkSearch : Nat)
    (brute : Bool) (fuel : Nat) (st0 : PSState)
    (hplan : GoodPlan plan) (hst0 : GoodState plan checkSearch st0) :
    ∀ g ∈ (searchRun plan arr magic maxSearch checkSearch brute fuel st0 []).2,
      EmitOK arr magic g :=
  searchRun_good plan hplan arr magic maxSearch checkSearch brute fuel st0 [] hst0
    (by simp)

/-- Witness for C1: the power-1 search with magic number 15 (center
pre-seeded to 5, cursor starting at 2, table `0..12`, bound 6) emits
exactly one grid, the magic square `2 9 4 / 7 5 3 / 6 1 8`, and the claim
theorem applies to this concrete run. -/
theorem solved_grid_distinct_and_magic_witness :
    GoodPlan power1Plan ∧
    GoodState power1Plan 1 ⟨[0, 0, 0, 0, 0, 5, 0, 0, 0, 0], 2⟩ ∧
    (searchRun power1Plan (parkerArrNumbers 1 12) 15 6 1 false 60
        ⟨[0, 0, 0, 0, 0, 5, 0, 0, 0, 0], 2⟩ []).2 = [[0, 2, 9, 4, 7, 5, 3, 6, 1, 8]] ∧
    ∀ g ∈ (searchRun power1Plan (parkerArrNumbers 1 12) 15 6 1 false 60
        ⟨[0, 0, 0, 0, 0, 5, 0, 0, 0, 0], 2⟩ []).2,
      EmitOK (parkerArrNumbers 1 12) 15 g := by
  have hplan : GoodPlan power1Plan := ⟨by decide, by decide, by decide⟩
  have hst : GoodState power1Plan 1 ⟨[0, 0, 0, 0, 0, 5, 0, 0, 0, 0], 2⟩ := by
    constructor
    · exact ⟨by decide, by decide, by decide⟩
    · intro j hj hj1 hle
      interval_cases j <;> simp_all [power1Plan] <;> decide
  exact ⟨hplan, hst, by rfl,
    solved_grid_distinct_and_magic power1Plan (parkerArrNumbers 1 12) 15 6 1 false 60
      ⟨[0, 0, 0, 0, 0, 5, 0, 0, 0, 0], 2⟩ hplan hst⟩

/-! ## C6: order of the divisibility-by-3 pre-filter and table construction

`parkersquare.py` runs `_parkerInit()` — which computes the table size at
line 161 and allocates and fills `glbArrNumbers` (lines 165-173) — and only
afterwards `_parkerSearch()`, whose first test is
`glbMagicNumber % 3 != 0` (lines 327-330).  The size expression
`int((m - 1 - 2 ** power) ** (1 / power))` has an error path of its own:
for `power ≥ 2` the exponent `1 / power` is a non-integral float, so a
negative base (`m < 1 + 2 ^ power`) yields a complex number and `int(...)`
raises `TypeError` before any table is allocated; for `power = 1` the
exponent is `1.0`, a negative base stays real, and a non-positive size
just allocates an empty table.  `parkersquare2.py` instead tests `% 3`
inside `_parkerInit` (lines 337-340) and returns before
`_parkerDualSquares` ever builds a table.  The traces below record the
observable steps in source order. -/

inductive PEvent where
  | initTypeError
  | tableBuild
  | mod3Reject
  | threeSquareReject
  | centerReject
  | notEnoughSquares
  | searchLoop
deriving DecidableEq, Repr

/-- Pipeline of `ParkerSquare` in parkersquare.py: the size computation at
line 161 raises `TypeError` when `power ≥ 2` and `m - 1 - 2 ^ power < 0`
(complex root passed to `int`); otherwise `_parkerInit` builds the value
table (empty when the size is non-positive), then `_parkerSearch` checks
divisibility by 3, then (for power 2) the three-square theorem, then
enters the loop.  (The three-square check is total here for `m ≥ 1`; the
Python loop would spin forever on `m = 0`, cf. C10.) -/
def parkerSquare1Pipeline (m power : Nat) : List PEvent :=
  if 2 ≤ power ∧ m < 1 + 2 ^ power then [PEvent.initTypeError]
  else
    [PEvent.tableBuild] ++
    (if m % 3 ≠ 0 then [PEvent.mod3Reject]
     else if power = 2 ∧ (ParkerThreeSquareCheck m).getD false = false then
       [PEvent.threeSquareReject]
     else [PEvent.searchLoop])

/-- Pipeline of `ParkerSquare` in parkersquare2.py: `_parkerInit` rejects
non-multiples of 3, three-square failures and non-square centers before
`_parkerDualSquares` builds the table; the search loop runs only when at
least 8 magnitudes were found. -/
def parkerSquare2Pipeline (m : Nat) : List PEvent :=
  if m % 3 ≠ 0 then [PEvent.mod3Reject]
  else if (ParkerThreeSquareCheck m).getD false = false then [PEvent.threeSquareReject]
  else if ParkerIsSquareB (m / 3 : Nat) = false then [PEvent.centerReject]
  else
    [PEvent.tableBuild] ++
    (if (parkerDualSquares m).2 = false then [PEvent.notEnoughSquares]
     else [PEvent.searchLoop])

/-- C6 counterexample: for the magic number 8 with power 2 (8 is not
divisible by 3 and `8 ≥ 1 + 2^2`, so the size computation succeeds with
size 1) the parkersquare.py pipeline *does* construct the value table
`[0, 1]`, and does so before the divisibility-by-3 pre-filter runs — the
trace is `[tableBuild, mod3Reject]` — contradicting "without constructing
a value table: the divisibility-by-3 pre-filter runs before any table
allocation or population".  For the magic number 4 with power 2 the claim
fails differently: `int((-1) ** 0.5)` at line 161 raises `TypeError`, so
neither the infeasibility report nor the pre-filter is reached. -/
theorem mod3_prefilter_after_table_build_cex :
    8 % 3 ≠ 0 ∧
    parkerSquare1Pipeline 8 2 = [PEvent.tableBuild, PEvent.mod3Reject] ∧
    PEvent.tableBuild ∈ parkerSquare1Pipeline 8 2 ∧
    parkerSquare1Pipeline 4 2 = [PEvent.initTypeError] := by decide

/-- C6 amended: for any magic number not divisible by 3, parkersquare2
reports infeasibility without constructing a value table (the mod-3
pre-filter is the first step of its init).  parkersquare performs no
solution search for such magic numbers either, but in two different ways:
when the size computation succeeds (power 1, or `m ≥ 1 + 2 ^ power`), its
`_parkerInit` has already allocated and filled the generic value table
before `_parkerSearch` returns at the mod-3 test; when `power ≥ 2` and
`m < 1 + 2 ^ power`, line 161 raises `TypeError` before any table
allocation and no infeasibility report is produced at all. -/
theorem mod3_prefilter_behaviour :
    (∀ m : Nat, m % 3 ≠ 0 → parkerSquare2Pipeline m = [PEvent.mod3Reject]) ∧
    (∀ m power : Nat, m % 3 ≠ 0 → ¬ (2 ≤ power ∧ m < 1 + 2 ^ power) →
      parkerSquare1Pipeline m power = [PEvent.tableBuild, PEvent.mod3Reject]) ∧
    (∀ m power : Nat, 2 ≤ power → m < 1 + 2 ^ power →
      parkerSquare1Pipeline m power = [PEvent.initTypeError]) := by
  refine ⟨?_, ?_, ?_⟩
  · intro m hm
    unfold parkerSquare2Pipeline
    rw [if_pos hm]
  · intro m power hm herr
    unfold parkerSquare1Pipeline
    rw [if_neg herr, if_pos hm]
    rfl
  · intro m power hp hm
    unfold parkerSquare1Pipeline
    rw [if_pos ⟨hp, hm⟩]

/-- Witness for C6 (amended) at the concrete magic numbers 5, 8 and 4. -/
theorem mod3_prefilter_behaviour_witness :
    (5 % 3 ≠ 0 ∧ parkerSquare2Pipeline 5 = [PEvent.mod3Reject]) ∧
    (8 % 3 ≠ 0 ∧ ¬ (2 ≤ 2 ∧ 8 < 1 + 2 ^ 2) ∧
      parkerSquare1Pipeline 8 2 = [PEvent.tableBuild, PEvent.mod3Reject]) ∧
    (2 ≤ 2 ∧ 4 < 1 + 2 ^ 2 ∧
      parkerSquare1Pipeline 4 2 = [PEvent.initTypeError]) :=
  ⟨⟨by decide, mod3_prefilter_behaviour.1 5 (by decide)⟩,
   ⟨by decide, by decide, mod3_prefilter_behaviour.2.1 8 2 (by decide) (by decide)⟩,
   ⟨by decide, by decide, mod3_prefilter_behaviour.2.2 4 2 (by decide) (by decide)⟩⟩

/-! ## C4: correctness of `ParkerIsSquare`

Layer 1: the power-of-4 reduction writes the input as `4^t * m` with
`m` not divisible by 4, and the reduction of a square is an odd square. -/

lemma reduce4Aux_spec : ∀ fuel n, 1 ≤ n → n ≤ fuel →
    ∃ t, n = 4 ^ t * reduce4Aux fuel n ∧ reduce4Aux fuel n % 4 ≠ 0 ∧
      1 ≤ reduce4Aux fuel n := by
  intro fuel
  induction fuel with
  | zero => intro n h1 h2; omega
  | succ k ih =>
    intro n h1 h2
    rw [reduce4Aux]
    by_cases h4 : n % 4 = 0 ∧ 0 < n
    · rw [if_pos h4]
      have hq1 : 1 ≤ n / 4 := by omega
      have hqk : n / 4 ≤ k := by omega
      obtain ⟨t, ht1, ht2, ht3⟩ := ih (n / 4) hq1 hqk
      refine ⟨t + 1, ?_, ht2, ht3⟩
      calc n = 4 * (n / 4) := by omega
        _ = 4 * (4 ^ t * reduce4Aux k (n / 4)) := by rw [← ht1]
        _ = 4 ^ (t + 1) * reduce4Aux k (n / 4) := by rw [pow_succ]; ring
    · rw [if_neg h4]
      exact ⟨0, by simp, by omega, h1⟩

lemma reduce4_spec {n : Nat} (h1 : 1 ≤ n) :
    ∃ t, n = 4 ^ t * reduce4 n ∧ reduce4 n % 4 ≠ 0 ∧ 1 ≤ reduce4 n :=
  reduce4Aux_spec n n h1 le_rfl

lemma exists_two_pow_odd : ∀ k, 1 ≤ k → ∃ a c, c % 2 = 1 ∧ k = 2 ^ a * c := by
  intro k
  induction k using Nat.strong_induction_on with
  | _ k ih =>
    intro h1
    by_cases h2 : k % 2 = 0
    · have hlt : k / 2 < k := Nat.div_lt_self (by omega) (by omega)
      obtain ⟨a, c, hc, hk⟩ := ih (k / 2) hlt (by omega)
      refine ⟨a + 1, c, hc, ?_⟩
      have hk2 : k = 2 * (k / 2) := by omega
      rw [hk2, hk, pow_succ]
      ring
    · exact ⟨0, k, by omega, by simp⟩

lemma pow4_cancel : ∀ t a m c : Nat, m % 4 ≠ 0 → c % 4 ≠ 0 →
    4 ^ t * m = 4 ^ a * c → m = c := by
  intro t
  induction t with
  | zero =>
    intro a m c hm hc h
    cases a with
    | zero => simpa using h
    | succ b =>
      exfalso
      apply hm
      simp only [pow_zero, one_mul] at h
      have hdvd : (4 : Nat) ∣ m := ⟨4 ^ b * c, by rw [h, pow_succ]; ring⟩
      omega
  | succ u ih =>
    intro a m c hm hc h
    cases a with
    | zero =>
      exfalso
      apply hc
      simp only [pow_zero, one_mul] at h
      have hdvd : (4 : Nat) ∣ c := ⟨4 ^ u * m, by rw [← h, pow_succ]; ring⟩
      omega
    | succ b =>
      have e1 : 4 * (4 ^ u * m) = 4 ^ (u + 1) * m := by rw [pow_succ]; ring
      have e2 : 4 * (4 ^ b * c) = 4 ^ (b + 1) * c := by rw [pow_succ]; ring
      exact ih b m c hm hc (Nat.eq_of_mul_eq_mul_left (show 0 < 4 by norm_num)
        (by rw [e1, e2, h]))

lemma reduce4_sq {k : Nat} (h1 : 1 ≤ k) :
    ∃ b, b % 2 = 1 ∧ 1 ≤ b ∧ reduce4 (k * k) = b * b := by
  obtain ⟨a, c, hc, hk⟩ := exists_two_pow_odd k h1
  have hc1 : 1 ≤ c := by
    rcases Nat.eq_zero_or_pos c with h | h
    · omega
    · exact h
  have h4a : (4 : Nat) ^ a = 2 ^ a * 2 ^ a := by
    rw [show (4 : Nat) = 2 * 2 from rfl, mul_pow]
  have hksq : k * k = 4 ^ a * (c * c) := by rw [hk, h4a]; ring
  have hkk1 : 1 ≤ k * k := Nat.one_le_iff_ne_zero.mpr (by positivity)
  obtain ⟨t, ht1, ht2, ht3⟩ := reduce4_spec hkk1
  have hccodd : (c * c) % 2 = 1 := by rw [Nat.mul_mod, hc]
  have hcc4 : (c * c) % 4 ≠ 0 := by omega
  refine ⟨c, hc, hc1, ?_⟩
  have : reduce4 (k * k) = c * c :=
    pow4_cancel t a (reduce4 (k * k)) (c * c) ht2 hcc4 (by rw [← ht1, hksq])
  rw [this]

/-! Layer 2: the modulo sieves never reject an odd perfect square. -/

lemma odd_sq_mod8 {b : Nat} (hb : b % 2 = 1) : (b * b) % 8 = 1 := by
  rw [Nat.mul_mod]
  have h2 : b % 8 % 2 = 1 := by
    rw [Nat.mod_mod_of_dvd b (by norm_num : (2 : Nat) ∣ 8)]; exact hb
  have h8 : b % 8 < 8 := Nat.mod_lt _ (by norm_num)
  exact (by decide : ∀ r, r < 8 → r % 2 = 1 → (r * r) % 8 = 1) _ h8 h2

lemma odd_sq_mod10 {b : Nat} (hb : b % 2 = 1) :
    ¬((b * b) % 10 = 3 ∨ (b * b) % 10 = 7) := by
  rw [Nat.mul_mod]
  have h2 : b % 10 % 2 = 1 := by
    rw [Nat.mod_mod_of_dvd b (by norm_num : (2 : Nat) ∣ 10)]; exact hb
  have h10 : b % 10 < 10 := Nat.mod_lt _ (by norm_num)
  exact (by decide : ∀ r, r < 10 → r % 2 = 1 →
    ¬((r * r) % 10 = 3 ∨ (r * r) % 10 = 7)) _ h10 h2

lemma sq_mod7 (b : Nat) :
    ¬((b * b) % 7 = 3 ∨ (b * b) % 7 = 5 ∨ (b * b) % 7 = 6) := by
  rw [Nat.mul_mod]
  have h7 : b % 7 < 7 := Nat.mod_lt _ (by norm_num)
  exact (by decide : ∀ r, r < 7 →
    ¬((r * r) % 7 = 3 ∨ (r * r) % 7 = 5 ∨ (r * r) % 7 = 6)) _ h7

lemma sq_mod9 (b : Nat) :
    ¬((b * b) % 9 = 2 ∨ (b * b) % 9 = 3 ∨ (b * b) % 9 = 5 ∨
      (b * b) % 9 = 6 ∨ (b * b) % 9 = 8) := by
  rw [Nat.mul_mod]
  have h9 : b % 9 < 9 := Nat.mod_lt _ (by norm_num)
  exact (by decide : ∀ r, r < 9 →
    ¬((r * r) % 9 = 2 ∨ (r * r) % 9 = 3 ∨ (r * r) % 9 = 5 ∨
      (r * r) % 9 = 6 ∨ (r * r) % 9 = 8)) _ h9

lemma sq_mod13 (b : Nat) :
    ¬((b * b) % 13 = 2 ∨ (b * b) % 13 = 5 ∨ (b * b) % 13 = 6 ∨
      (b * b) % 13 = 7 ∨ (b * b) % 13 = 8 ∨ (b * b) % 13 = 11) := by
  rw [Nat.mul_mod]
  have h13 : b % 13 < 13 := Nat.mod_lt _ (by norm_num)
  exact (by decide : ∀ r, r < 13 →
    ¬((r * r) % 13 = 2 ∨ (r * r) % 13 = 5 ∨ (r * r) % 13 = 6 ∨
      (r * r) % 13 = 7 ∨ (r * r) % 13 = 8 ∨ (r * r) % 13 = 11)) _ h13

/-! Layer 2b: the decimal-digit patterns never reject an odd perfect
square. -/

lemma div_mod_of_mul_dvd {d r M : Nat} (hd : 0 < d) (h : d * r ∣ M) (x : Nat) :
    (x % M) / d % r = x / d % r := by
  obtain ⟨u, hu⟩ := h
  set q := x / M with hq
  have hMq : M * q = d * (r * (u * q)) := by rw [hu]; ring
  have hx : x = x % M + d * (r * (u * q)) := by
    rw [← hMq]
    exact (Nat.mod_add_div x M).symm
  conv_rhs => rw [hx]
  rw [Nat.add_mul_div_left _ _ hd, Nat.add_mul_mod_self_left]

lemma digitReject_dep (x : Nat) : digitReject x = digitReject (x % 10000) := by
  unfold digitReject
  conv_rhs => rw [Nat.mod_mod_of_dvd x (by norm_num : (10 : Nat) ∣ 10000),
    div_mod_of_mul_dvd (by norm_num) (by norm_num : (10 * 10 : Nat) ∣ 10000) x,
    div_mod_of_mul_dvd (by norm_num) (by norm_num : (100 * 10 : Nat) ∣ 10000) x,
    div_mod_of_mul_dvd (by norm_num) (by norm_num : (1000 * 10 : Nat) ∣ 10000) x,
    div_mod_of_mul_dvd (by norm_num) (by norm_num : (10 * 4 : Nat) ∣ 10000) x]

lemma sq_add_self_mod10 (j : Nat) :
    (j * j + j) % 10 = ((j % 10) * (j % 10) + j % 10) % 10 := by
  have hq : j = 10 * (j / 10) + j % 10 := by omega
  have expand : j * j + j = 100 * ((j / 10) * (j / 10)) + 20 * ((j / 10) * (j % 10)) +
      10 * (j / 10) + ((j % 10) * (j % 10) + j % 10) := by
    conv_lhs => rw [hq]
    ring
  omega

lemma sq_add_self_mod100 (j : Nat) :
    (j * j + j) % 100 = ((j % 100) * (j % 100) + j % 100) % 100 := by
  have hq : j = 100 * (j / 100) + j % 100 := by omega
  have expand : j * j + j = 10000 * ((j / 100) * (j / 100)) +
      200 * ((j / 100) * (j % 100)) + 100 * (j / 100) +
      ((j % 100) * (j % 100) + j % 100) := by
    conv_lhs => rw [hq]
    ring
  omega

lemma digitReject_odd_sq {b : Nat} (hb : b % 2 = 1) : digitReject (b * b) = false := by
  by_cases h5 : b % 5 = 0
  · -- b ends in digit 5
    have hbrep : b = 10 * (b / 10) + 5 := by omega
    set j := b / 10 with hj
    have hm : b * b = 100 * (j * j + j) + 25 := by
      conv_lhs => rw [hbrep]
      ring
    set J := j * j + j with hJ
    have hc : (b * b) % 10 = 5 := by omega
    have hd1 : (b * b) / 10 % 10 = 2 := by omega
    have hd2 : (b * b) / 100 = J := by omega
    have hd3 : (b * b) / 1000 = J / 10 := by omega
    have hJ10 : J % 10 = 0 ∨ J % 10 = 2 ∨ J % 10 = 6 := by
      have h1 := sq_add_self_mod10 j
      have h2 := (by decide : ∀ t, t < 10 →
        (t * t + t) % 10 = 0 ∨ (t * t + t) % 10 = 2 ∨ (t * t + t) % 10 = 6)
        (j % 10) (Nat.mod_lt _ (by norm_num))
      rw [hJ, h1]
      exact h2
    have hJ6 : J % 10 = 6 → J / 10 % 10 = 0 ∨ J / 10 % 10 = 5 := by
      intro h6
      have h1 := sq_add_self_mod100 j
      have hdm := div_mod_of_mul_dvd (show 0 < 10 by norm_num)
        (by norm_num : (10 * 10 : Nat) ∣ 100) J
      have h2 := (by decide : ∀ t, t < 100 → ((t * t + t) % 100) % 10 = 6 →
        ((t * t + t) % 100) / 10 % 10 = 0 ∨ ((t * t + t) % 100) / 10 % 10 = 5)
        (j % 100) (Nat.mod_lt _ (by norm_num))
      rw [← hdm, hJ, h1]
      apply h2
      rw [← h1, ← hJ]
      omega
    unfold digitReject
    rw [if_pos hc, if_neg (by omega : ¬ (b * b) / 10 % 10 ≠ 2)]
    rw [if_neg (not_not_intro (by rw [hd2]; exact hJ10))]
    rw [if_neg ?hcond3]
    case hcond3 =>
      rintro ⟨h6, hnot⟩
      apply hnot
      rw [hd2] at h6
      rw [hd3]
      exact hJ6 h6
  · -- b does not end in 0 or 5
    have h40 : (b * b) % 40 = 1 ∨ (b * b) % 40 = 9 := by
      have h2 : b % 40 % 2 = 1 := by omega
      have h5' : b % 40 % 5 ≠ 0 := by omega
      have h40lt : b % 40 < 40 := Nat.mod_lt _ (by norm_num)
      rw [Nat.mul_mod]
      exact (by decide : ∀ r, r < 40 → r % 2 = 1 → r % 5 ≠ 0 →
        (r * r) % 40 = 1 ∨ (r * r) % 40 = 9) _ h40lt h2 h5'
    have hc : (b * b) % 10 ≠ 5 := by omega
    have hq4 : (b * b) / 10 % 4 = 0 := by omega
    unfold digitReject
    rw [if_neg hc]
    simp [hq4]

/-! Layer 3: the Babylonian loop with cycle detection. -/

lemma two_sqrt_le (m x : Nat) (hx : 1 ≤ x) : 2 * Nat.sqrt m ≤ x + m / x := by
  by_cases hcase : 2 * Nat.sqrt m ≤ x
  · exact le_trans hcase (Nat.le_add_right x (m / x))
  · have hrx : x ≤ 2 * Nat.sqrt m := by omega
    have hsq : Nat.sqrt m * Nat.sqrt m ≤ m := Nat.sqrt_le m
    have h2 : (2 * Nat.sqrt m - x) * x ≤ Nat.sqrt m * Nat.sqrt m := by
      zify [hrx]
      nlinarith [sq_nonneg ((Nat.sqrt m : Int) - x)]
    have h4 := (Nat.le_div_iff_mul_le hx).mpr (le_trans h2 hsq)
    calc 2 * Nat.sqrt m = x + (2 * Nat.sqrt m - x) := by omega
      _ ≤ x + m / x := Nat.add_le_add_left h4 x

lemma sqrt_le_babStep (m x : Nat) (hx : 1 ≤ x) :
    Nat.sqrt m ≤ (x + m / x) / 2 := by
  refine (Nat.le_div_iff_mul_le (by norm_num)).mpr ?_
  have := two_sqrt_le m x hx
  linarith

lemma babStep_lt (m x : Nat) (h : Nat.sqrt m < x) : (x + m / x) / 2 < x := by
  have hx : 0 < x := by omega
  have hmx : m < x * x := by
    have h2 := Nat.sqrt_lt'.mp h
    nlinarith [h2]
  have hdiv : m / x < x := (Nat.div_lt_iff_lt_mul hx).mpr hmx
  refine (Nat.div_lt_iff_lt_mul (show 0 < 2 by norm_num)).mpr ?_
  linarith

/-- When the reduced candidate is a perfect square `k ≤ x` and the visited
set contains only values below `k` or at least `x`, the loop reaches `k`
and answers `true`. -/
lemma babylon_reaches_root {m k : Nat} (hk : k * k = m) (hk1 : 1 ≤ k) :
    ∀ fuel x a, k ≤ x → (∀ z ∈ a, z < k ∨ x ≤ z) → x - k + 1 ≤ fuel →
      babylonLoop m fuel x a = some true := by
  intro fuel
  induction fuel with
  | zero => intro x a h1 h2 h3; omega
  | succ f ih =>
    intro x a hkx hset hfuel
    rw [babylonLoop]
    by_cases hxx : x * x = m
    · rw [if_pos hxx]
    · rw [if_neg hxx]
      have hxk : k < x := by
        rcases Nat.lt_or_ge k x with h | h
        · exact h
        · exact absurd (by rw [(by omega : x = k), hk]) hxx
      have hrm : Nat.sqrt m = k := by rw [← hk, Nat.sqrt_eq]
      set y := (x + m / x) / 2 with hydef
      have hy1 : k ≤ y := by
        have h := sqrt_le_babStep m x (by omega)
        rw [hrm] at h
        exact h
      have hy2 : y < x := babStep_lt m x (by rw [hrm]; omega)
      have hymem : y ∉ a := by
        intro hmem
        rcases hset _ hmem with h | h <;> omega
      rw [if_neg hymem]
      apply ih y (y :: a) hy1 ?_ (by omega)
      intro z hz
      rcases List.mem_cons.mp hz with rfl | hz2
      · exact Or.inr le_rfl
      · rcases hset z hz2 with h | h
        · exact Or.inl h
        · exact Or.inr (by omega)

/-- The loop always terminates with an answer: either it descends, or it
sits at `sqrt m` where the next step revisits a value already in the set
(the set always holds the current value). -/
lemma babylon_isSome {m : Nat} (hm2 : 2 ≤ m) (hr1 : 1 ≤ Nat.sqrt m) :
    ∀ fuel x a, Nat.sqrt m ≤ x → x ∈ a → x - Nat.sqrt m + 3 ≤ fuel →
      (babylonLoop m fuel x a).isSome := by
  intro fuel
  induction fuel with
  | zero => intro x a h1 h2 h3; omega
  | succ f ih =>
    intro x a hrx hxa hfuel
    rw [babylonLoop]
    by_cases hxx : x * x = m
    · rw [if_pos hxx]; rfl
    · rw [if_neg hxx]
      set y := (x + m / x) / 2 with hydef
      have hyr : Nat.sqrt m ≤ y := sqrt_le_babStep m x (by omega)
      by_cases hymem : y ∈ a
      · rw [if_pos hymem]; rfl
      · rw [if_neg hymem]
        rcases Nat.lt_or_ge (Nat.sqrt m) x with hxr | hxr
        · have hy2 : y < x := babStep_lt m x hxr
          exact ih y (y :: a) hyr (List.mem_cons_self _ _) (by omega)
        · have hxr' : x = Nat.sqrt m := by omega
          have hmlt : m < (Nat.sqrt m + 1) * (Nat.sqrt m + 1) := Nat.lt_succ_sqrt m
          have hdr : m / x ≤ Nat.sqrt m + 2 := by
            apply Nat.div_le_of_le_mul
            rw [hxr']
            nlinarith
          have hyle : y < Nat.sqrt m + 2 := by
            rw [hydef]
            refine (Nat.div_lt_iff_lt_mul (show 0 < 2 by norm_num)).mpr ?_
            linarith
          have hyne : y ≠ x := fun h => hymem (h ▸ hxa)
          have hyeq : y = Nat.sqrt m + 1 := by omega
          rw [hyeq]
          rcases f with - | f2
          · omega
          rw [babylonLoop]
          by_cases hxx2 : (Nat.sqrt m + 1) * (Nat.sqrt m + 1) = m
          · rw [if_pos hxx2]; rfl
          · rw [if_neg hxx2]
            set y2 := (Nat.sqrt m + 1 + m / (Nat.sqrt m + 1)) / 2 with hy2def
            have h1 : Nat.sqrt m ≤ y2 := sqrt_le_babStep m (Nat.sqrt m + 1) (by omega)
            have h2 : m / (Nat.sqrt m + 1) < Nat.sqrt m + 1 :=
              (Nat.div_lt_iff_lt_mul (by omega)).mpr hmlt
            have h3 : y2 < Nat.sqrt m + 1 := by
              rw [hy2def]
              refine (Nat.div_lt_iff_lt_mul (show 0 < 2 by norm_num)).mpr ?_
              linarith
            have hy2eq : y2 = Nat.sqrt m := by omega
            rw [hy2eq, if_pos ?hm]
            · rfl
            case hm =>
              exact List.mem_cons.mpr (Or.inr (hxr' ▸ hxa))

/-- Entering the loop from the decimal start value `x0 ∈ [1, m)` with the
visited set `{x0, m}`: a perfect square is always recognised. -/
lemma babylon_start_true {m k : Nat} (hk : k * k = m) (hk1 : 1 ≤ k) (hm2 : 2 ≤ m)
    {x0 : Nat} (hx01 : 1 ≤ x0) (hx0m : x0 < m) {fuel : Nat} (hfuel : m + 3 ≤ fuel) :
    babylonLoop m fuel x0 [x0, m] = some true := by
  rcases fuel with - | f
  · omega
  rw [babylonLoop]
  by_cases hxx : x0 * x0 = m
  · rw [if_pos hxx]
  · rw [if_neg hxx]
    have hrm : Nat.sqrt m = k := by rw [← hk, Nat.sqrt_eq]
    set y := (x0 + m / x0) / 2 with hydef
    have hyk : k ≤ y := by
      have h := sqrt_le_babStep m x0 hx01
      rw [hrm] at h
      exact h
    have hym : y ≤ m - 1 := by
      have h1 : m / x0 ≤ m := Nat.div_le_self m x0
      have h2 : y ≤ (2 * m - 1) / 2 := by
        rw [hydef]
        exact Nat.div_le_div_right (by omega)
      omega
    have hx0k : x0 ≠ k := fun h => hxx (by rw [h, hk])
    have hyx0 : y ≠ x0 := by
      rcases Nat.lt_or_ge x0 k with h | h
      · omega
      · have hx0k' : k < x0 := by omega
        have := babStep_lt m x0 (by rw [hrm]; exact hx0k')
        omega
    have hymem : y ∉ [x0, m] := by
      intro hmem
      rcases List.mem_cons.mp hmem with h | h
      · exact hyx0 h
      · rcases List.mem_cons.mp h with h2 | h2
        · omega
        · exact absurd h2 (List.not_mem_nil _)
    rw [if_neg hymem]
    apply babylon_reaches_root hk hk1 f y (y :: [x0, m]) hyk ?_ (by omega)
    intro z hz
    rcases List.mem_cons.mp hz with rfl | hz1
    · exact Or.inr le_rfl
    · rcases List.mem_cons.mp hz1 with rfl | hz2
      · rcases Nat.lt_or_ge z k with h | h
        · exact Or.inl h
        · refine Or.inr ?_
          have hzk : k < z := by omega
          have := babStep_lt m z (by rw [hrm]; exact hzk)
          omega
      · rcases List.mem_cons.mp hz2 with rfl | hz3
        · exact Or.inr (by omega)
        · exact absurd hz3 (List.not_mem_nil _)

/-- Entering the loop from the decimal start value: the loop always
terminates with an answer for any `m ≥ 9`. -/
lemma babylon_start_isSome {m : Nat} (hm9 : 9 ≤ m) {x0 : Nat} (hx01 : 1 ≤ x0)
    (hx0m : x0 < m) {fuel : Nat} (hfuel : m + 4 ≤ fuel) :
    (babylonLoop m fuel x0 [x0, m]).isSome := by
  have hr3 : 3 ≤ Nat.sqrt m := Nat.le_sqrt.mpr (by omega)
  rcases fuel with - | f
  · omega
  rw [babylonLoop]
  by_cases hxx : x0 * x0 = m
  · rw [if_pos hxx]; rfl
  · rw [if_neg hxx]
    set y := (x0 + m / x0) / 2 with hydef
    have hyr : Nat.sqrt m ≤ y := sqrt_le_babStep m x0 hx01
    by_cases hymem : y ∈ [x0, m]
    · rw [if_pos hymem]; rfl
    · rw [if_neg hymem]
      have hym : y ≤ m - 1 := by
        have h1 : m / x0 ≤ m := Nat.div_le_self m x0
        have h2 : y ≤ (2 * m - 1) / 2 := by
          rw [hydef]
          exact Nat.div_le_div_right (by omega)
        omega
      exact babylon_isSome (by omega) (by omega) f y (y :: [x0, m]) hyr
        (List.mem_cons_self _ _) (by omega)

/-! Layer 4: the core routine on the reduced value. -/

lemma isSquareStart_pos (m : Nat) : 1 ≤ isSquareStart m := by
  unfold isSquareStart
  have h : 0 < (10 : Nat) ^ (Nat.log 10 m / 2) := by positivity
  omega

lemma isSquareStart_lt {m : Nat} (hm9 : 9 ≤ m) : isSquareStart m < m := by
  unfold isSquareStart
  rcases Nat.eq_zero_or_pos (Nat.log 10 m) with h0 | hpos
  · rw [h0]
    norm_num
    omega
  · have h10L : 10 ^ Nat.log 10 m ≤ m := Nat.pow_log_le_self 10 (by omega)
    have hsplit : (10 : Nat) ^ Nat.log 10 m =
        10 ^ (Nat.log 10 m / 2) * 10 ^ (Nat.log 10 m - Nat.log 10 m / 2) := by
      rw [← pow_add]
      congr 1
      omega
    have h10 : (10 : Nat) ≤ 10 ^ (Nat.log 10 m - Nat.log 10 m / 2) := by
      calc (10 : Nat) = 10 ^ 1 := (pow_one 10).symm
        _ ≤ _ := Nat.pow_le_pow_right (by norm_num) (by omega)
    have hbase : 0 < (10 : Nat) ^ (Nat.log 10 m / 2) := by positivity
    have hlt : 10 ^ (Nat.log 10 m / 2) * 4 <
        10 ^ (Nat.log 10 m / 2) * 10 ^ (Nat.log 10 m - Nat.log 10 m / 2) :=
      mul_lt_mul_of_pos_left (by omega) hbase
    omega

/-- The core routine recognises every odd perfect square. -/
lemma core_true_of_odd_sq {b : Nat} (hb : b % 2 = 1) (hb1 : 1 ≤ b) :
    parkerIsSquareCore (b * b) = some true := by
  rcases Nat.lt_or_ge b 3 with hlt | hge
  · have hb1' : b = 1 := by omega
    subst hb1'
    rfl
  · have hm9 : 9 ≤ b * b := by nlinarith
    have h8 : (b * b) % 8 = 1 := odd_sq_mod8 hb
    unfold parkerIsSquareCore
    rw [if_neg (by omega : ¬ (b * b) % 8 ≠ 1)]
    rw [if_neg (by omega : ¬ b * b = 1)]
    rw [if_neg (odd_sq_mod10 hb)]
    rw [if_neg (sq_mod7 b)]
    rw [if_neg (sq_mod9 b)]
    rw [if_neg (sq_mod13 b)]
    rw [if_neg (by simp [digitReject_odd_sq hb] : ¬ digitReject (b * b) = true)]
    exact babylon_start_true rfl hb1 (by omega) (isSquareStart_pos _)
      (isSquareStart_lt hm9) (by unfold isSquareFuel; omega)

/-- The core routine always returns an answer. -/
lemma core_isSome (m : Nat) : (parkerIsSquareCore m).isSome := by
  unfold parkerIsSquareCore
  split_ifs with h1 h2 h3 h4 h5 h6 h7
  · rfl
  · rfl
  · rfl
  · rfl
  · rfl
  · rfl
  · rfl
  · have hm9 : 9 ≤ m := by omega
    exact babylon_start_isSome hm9 (isSquareStart_pos _) (isSquareStart_lt hm9)
      (by unfold isSquareFuel; omega)

lemma babylon_true_imp_sq (m : Nat) :
    ∀ fuel x a, babylonLoop m fuel x a = some true → ∃ y, y * y = m := by
  intro fuel
  induction fuel with
  | zero => intro x a h; simp [babylonLoop] at h
  | succ f ih =>
    intro x a h
    rw [babylonLoop] at h
    by_cases hxx : x * x = m
    · exact ⟨x, hxx⟩
    · rw [if_neg hxx] at h
      by_cases hmem : (x + m / x) / 2 ∈ a
      · rw [if_pos hmem] at h
        simp at h
      · rw [if_neg hmem] at h
        exact ih _ _ h

/-- The core routine answers `true` only on perfect squares. -/
lemma core_true_imp_sq {m : Nat} (h : parkerIsSquareCore m = some true) :
    ∃ y, y * y = m := by
  unfold parkerIsSquareCore at h
  split_ifs at h with h1 h2 h3 h4 h5 h6 h7
  · simp at h
  · exact ⟨1, by omega⟩
  · simp at h
  · simp at h
  · simp at h
  · simp at h
  · simp at h
  · exact babylon_true_imp_sq m _ _ _ h

/-! Layer 5: assembly of the `ParkerIsSquare` wrapper. -/

lemma parkerIsSquare_sq (k : Nat) : ParkerIsSquare ((k : Int) * k) = some true := by
  rcases Nat.eq_zero_or_pos k with rfl | hk1
  · rfl
  · have hk0 : (0 : Int) < (k : Int) := by exact_mod_cast hk1
    have hpos : (0 : Int) < (k : Int) * k := mul_pos hk0 hk0
    unfold ParkerIsSquare
    rw [if_neg (by push_neg; exact le_of_lt hpos), if_neg (ne_of_gt hpos)]
    have htoNat : ((k : Int) * k).toNat = k * k := by
      rw [← Nat.cast_mul, Int.toNat_natCast]
    rw [htoNat]
    obtain ⟨b, hb, hb1, hred⟩ := reduce4_sq hk1
    rw [hred]
    exact core_true_of_odd_sq hb hb1

lemma parkerIsSquare_isSome (n : Int) : (ParkerIsSquare n).isSome := by
  unfold ParkerIsSquare
  split_ifs with h1 h2
  · rfl
  · rfl
  · exact core_isSome _

lemma parkerIsSquare_true_iff (n : Int) :
    ParkerIsSquare n = some true ↔ ∃ k : Nat, (k : Int) * k = n := by
  constructor
  · intro h
    unfold ParkerIsSquare at h
    split_ifs at h with h1 h2
    · simp at h
    · exact ⟨0, by simp [h2]⟩
    · have hn1 : 1 ≤ n.toNat := by omega
      obtain ⟨y, hy⟩ := core_true_imp_sq h
      obtain ⟨t, ht, hmod, hge⟩ := reduce4_spec hn1
      refine ⟨2 ^ t * y, ?_⟩
      have h4 : (4 : Nat) ^ t = 2 ^ t * 2 ^ t := by
        rw [show (4 : Nat) = 2 * 2 from rfl, mul_pow]
      have hnn : n.toNat = (2 ^ t * y) * (2 ^ t * y) := by
        rw [ht, ← hy, h4]; ring
      rw [← Nat.cast_mul, ← hnn]
      exact Int.toNat_of_nonneg (by omega)
  · rintro ⟨k, rfl⟩
    exact parkerIsSquare_sq k

lemma sq_succ_not_sq {k : Nat} (hk : 1 ≤ k) : ∀ y : Nat, y * y ≠ k * k + 1 := by
  intro y h
  rcases Nat.lt_or_ge y (k + 1) with h1 | h1
  · nlinarith
  · nlinarith

lemma parkerIsSquare_sq_succ {k : Nat} (hk : 1 ≤ k) :
    ParkerIsSquare ((k : Int) * k + 1) = some false := by
  rcases Option.isSome_iff_exists.mp (parkerIsSquare_isSome ((k : Int) * k + 1))
    with ⟨b, hb⟩
  cases b
  · exact hb
  · exfalso
    obtain ⟨y, hy⟩ := (parkerIsSquare_true_iff _).mp hb
    have hy' : y * y = k * k + 1 := by exact_mod_cast hy
    exact sq_succ_not_sq hk y hy'

/-- C4: for every integer `n`, `ParkerIsSquare` terminates with an answer,
returns `false` for every `n < 0`, `true` for `n = 0`, `true` for every
perfect square `k*k`, `false` for every `k*k + 1` with `k > 0`, and in
general returns `true` exactly on the non-negative perfect squares. -/
theorem parkerIsSquare_correct :
    (∀ n : Int, n < 0 → ParkerIsSquare n = some false) ∧
    ParkerIsSquare 0 = some true ∧
    (∀ k : Nat, ParkerIsSquare ((k : Int) * k) = some true) ∧
    (∀ k : Nat, 0 < k → ParkerIsSquare ((k : Int) * k + 1) = some false) ∧
    (∀ n : Int, (ParkerIsSquare n).isSome) ∧
    (∀ n : Int, ParkerIsSquare n = some true ↔ ∃ k : Nat, (k : Int) * k = n) := by
  refine ⟨?_, rfl, parkerIsSquare_sq, ?_, parkerIsSquare_isSome, parkerIsSquare_true_iff⟩
  · intro n hn
    unfold ParkerIsSquare
    rw [if_pos hn]
  · intro k hk
    exact parkerIsSquare_sq_succ hk

/-- Concrete evaluations of `parkerIsSquare_correct`: a negative input, a
perfect square, a square plus one, and the characterisation at 10^6. -/
theorem parkerIsSquare_correct_witness :
    ParkerIsSquare (-4) = some false ∧
    ParkerIsSquare ((7 : Int) * 7) = some true ∧
    ParkerIsSquare ((5 : Int) * 5 + 1) = some false ∧
    (ParkerIsSquare 1000000 = some true ↔ ∃ k : Nat, (k : Int) * k = 1000000) :=
  ⟨parkerIsSquare_correct.1 (-4) (by decide),
   parkerIsSquare_correct.2.2.1 7,
   parkerIsSquare_correct.2.2.2.1 5 (by decide),
   parkerIsSquare_correct.2.2.2.2.2 1000000⟩

end ParkerSquare
